import Mathlib

/-!
Hungry lizard crossing: lizardsUni.cpp and lizards.cpp.

Shallow embedding of the two crossing programs.  Every thread is a program
counter; one transition is one atomic action of the source: a loop test, a
sleep, a `sem_wait`, a `sem_post`, one critical section run under the counters
mutex, or one unlocked read of a global.  The scheduler is the list of actions
handed to `run`, so every interleaving of the threads is a list of actions.

* namespace `Uni` : src/lizardsUni.cpp (`UNIDIRECTIONAL 1`, condition variable)
* namespace `Bi`  : src/lizards.cpp    (`UNIDIRECTIONAL 0`, no direction gating)
-/

/-- Value of a C `int` (32 bits, two's complement) holding the integer `x`. -/
def wrapInt (x : Int) : Int := (x + 2147483648) % 4294967296 - 2147483648

/-- `#define MAX_LIZARD_CROSSING 4` (the same in both files). -/
def MAX_LIZARD_CROSSING : Nat := 4

/-- `#define MAX_LIZARD_SLEEP 3`. -/
def MAX_LIZARD_SLEEP : Nat := 3

/-- `#define MAX_CAT_SLEEP 3`. -/
def MAX_CAT_SLEEP : Nat := 3

/-- `#define MAX_LIZARD_EAT 5`. -/
def MAX_LIZARD_EAT : Nat := 5

/-- Number of threads in the list whose program counter satisfies `p`. -/
def countPC {α : Type} (p : α → Bool) : List α → Nat
  | [] => 0
  | x :: xs => (if p x then 1 else 0) + countPC p xs

/-- The test `totalCrossing > MAX_LIZARD_CROSSING` of `Cat::catThread`, on the
two counter values the cat has read (`totalCrossing` is an `int`). -/
def catCheck (first second : Int) : Bool :=
  decide (wrapInt (first + second) > (MAX_LIZARD_CROSSING : Int))

/-- Program counter of a cat thread in `Cat::catThread` (the same text in both
files).  The sum
`numCrossingSago2MonkeyGrass + numCrossingMonkeyGrass2Sago` is two loads of
globals made without a lock; `readM2S first` is the point between them. -/
inductive CatPC where
  | loopTop
  | sleepNow
  | readS2M
  | readM2S (first : Int)
  | returned
  deriving DecidableEq, Repr

namespace Uni

/-- `#define UNIDIRECTIONAL 1` of lizardsUni.cpp. -/
def UNIDIRECTIONAL : Nat := 1

/-- The enum `Direction` of lizardsUni.cpp. -/
inductive Direction where
  | NONE
  | SAGO_TO_MONKEY_GRASS
  | MONKEY_GRASS_TO_SAGO
  deriving DecidableEq, Repr

/-- Program counter of a lizard thread in `Lizard::lizardThread`. -/
inductive LizardPC where
  /-- at the test `while(running)` -/
  | loopTop
  /-- inside `sleepNow()` -/
  | sleepNow
  /-- at `sem_wait` of `sago2MonkeyGrassIsSafe` -/
  | semWaitS2M
  /-- holds a permit; about to evaluate the predicate of `direction_CV.wait`
  under `direction_mutex` (first evaluation, or re-evaluation after a wakeup) -/
  | waitS2M
  /-- blocked inside `direction_CV.wait`, mutex released -/
  | asleepS2M
  /-- count claimed; at the pile-up check of `crossSago2MonkeyGrass` -/
  | checkS2M
  /-- in `sleep(CROSS_SECONDS)`, before the completion section -/
  | crossS2M
  /-- at `sem_post` of `madeIt2MonkeyGrass` -/
  | postS2M
  /-- inside `eat()` -/
  | eat
  /-- at `sem_wait` of `monkeyGrass2SagoIsSafe` -/
  | semWaitM2S
  | waitM2S
  | asleepM2S
  | checkM2S
  | crossM2S
  /-- at `sem_post` of `madeIt2Sago` -/
  | postM2S
  /-- the thread function has returned -/
  | returned
  deriving DecidableEq, Repr

/-- The globals of lizardsUni.cpp, the semaphore value, the process exit status
(`none` while the process runs) and the program counters of all threads. -/
structure State where
  currentDirection : Direction
  numCrossingSago2MonkeyGrass : Int
  numCrossingMonkeyGrass2Sago : Int
  driveway_sem : Nat
  running : Bool
  exitStatus : Option Int
  lizards : List LizardPC
  cats : List CatPC
  deriving DecidableEq, Repr

/-- State after the initialisers and `sem_init(&driveway_sem, 0, MAX_LIZARD_CROSSING)`,
with `nLizards` lizard threads and `nCats` cat threads started. -/
def init (nLizards nCats : Nat) : State :=
  { currentDirection := .NONE
    numCrossingSago2MonkeyGrass := 0
    numCrossingMonkeyGrass2Sago := 0
    driveway_sem := MAX_LIZARD_CROSSING
    running := true
    exitStatus := none
    lizards := List.replicate nLizards .loopTop
    cats := List.replicate nCats .loopTop }

/-- The predicate passed to `direction_CV.wait` in `sago2MonkeyGrassIsSafe`. -/
def predS2M (s : State) : Bool :=
  (s.currentDirection == .SAGO_TO_MONKEY_GRASS && s.numCrossingMonkeyGrass2Sago == 0)
    || s.currentDirection == .NONE

/-- The predicate passed to `direction_CV.wait` in `monkeyGrass2SagoIsSafe`. -/
def predM2S (s : State) : Bool :=
  (s.currentDirection == .MONKEY_GRASS_TO_SAGO && s.numCrossingSago2MonkeyGrass == 0)
    || s.currentDirection == .NONE

/-- Rest of the locked section of `sago2MonkeyGrassIsSafe` once the predicate
holds: set the direction if it is `NONE`, then `numCrossingSago2MonkeyGrass++`. -/
def claimS2M (s : State) : State :=
  { s with
    currentDirection :=
      if s.currentDirection = .NONE then .SAGO_TO_MONKEY_GRASS else s.currentDirection
    numCrossingSago2MonkeyGrass := wrapInt (s.numCrossingSago2MonkeyGrass + 1) }

/-- Rest of the locked section of `monkeyGrass2SagoIsSafe` once the predicate
holds. -/
def claimM2S (s : State) : State :=
  { s with
    currentDirection :=
      if s.currentDirection = .NONE then .MONKEY_GRASS_TO_SAGO else s.currentDirection
    numCrossingMonkeyGrass2Sago := wrapInt (s.numCrossingMonkeyGrass2Sago + 1) }

/-- Effect of a wakeup on one thread: a thread blocked in `direction_CV.wait`
goes back to evaluating its predicate. -/
def wake : LizardPC → LizardPC
  | .asleepS2M => .waitS2M
  | .asleepM2S => .waitM2S
  | pc => pc

/-- `direction_CV.notify_all()`. -/
def notify_all (l : List LizardPC) : List LizardPC := l.map wake

/-- Second locked section of `crossSago2MonkeyGrass`:
`numCrossingSago2MonkeyGrass--`, and when the count is 0 the direction is
reset and every waiter notified. -/
def completeS2M (s : State) : State :=
  let n := wrapInt (s.numCrossingSago2MonkeyGrass - 1)
  if n = 0 then
    { s with
      numCrossingSago2MonkeyGrass := n
      currentDirection := .NONE
      lizards := notify_all s.lizards }
  else
    { s with numCrossingSago2MonkeyGrass := n }

/-- Second locked section of `crossMonkeyGrass2Sago`. -/
def completeM2S (s : State) : State :=
  let n := wrapInt (s.numCrossingMonkeyGrass2Sago - 1)
  if n = 0 then
    { s with
      numCrossingMonkeyGrass2Sago := n
      currentDirection := .NONE
      lizards := notify_all s.lizards }
  else
    { s with numCrossingMonkeyGrass2Sago := n }

/-- Move lizard `i` to program counter `pc`. -/
def setPC (s : State) (i : Nat) (pc : LizardPC) : State :=
  { s with lizards := s.lizards.set i pc }

/-- Move cat `j` to program counter `pc`. -/
def setCat (s : State) (j : Nat) (pc : CatPC) : State :=
  { s with cats := s.cats.set j pc }

/-- `exit(-1)`. -/
def exitProcess (s : State) : State :=
  { s with exitStatus := some (-1) }

/-- One atomic action of lizard `i`; `none` when the lizard is blocked, has
returned, or does not exist. -/
def lizardStep (s : State) (i : Nat) : Option State :=
  match s.lizards[i]? with
  | none => none
  | some .loopTop => some (setPC s i (if s.running then .sleepNow else .returned))
  | some .sleepNow => some (setPC s i .semWaitS2M)
  | some .semWaitS2M =>
      if 0 < s.driveway_sem then
        some (setPC { s with driveway_sem := s.driveway_sem - 1 } i .waitS2M)
      else none
  | some .waitS2M =>
      if predS2M s then some (setPC (claimS2M s) i .checkS2M)
      else some (setPC s i .asleepS2M)
  | some .asleepS2M => none
  | some .checkS2M =>
      if 0 < s.numCrossingMonkeyGrass2Sago ∧ UNIDIRECTIONAL ≠ 0 then some (exitProcess s)
      else some (setPC s i .crossS2M)
  | some .crossS2M => some (setPC (completeS2M s) i .postS2M)
  | some .postS2M => some (setPC { s with driveway_sem := s.driveway_sem + 1 } i .eat)
  | some .eat => some (setPC s i .semWaitM2S)
  | some .semWaitM2S =>
      if 0 < s.driveway_sem then
        some (setPC { s with driveway_sem := s.driveway_sem - 1 } i .waitM2S)
      else none
  | some .waitM2S =>
      if predM2S s then some (setPC (claimM2S s) i .checkM2S)
      else some (setPC s i .asleepM2S)
  | some .asleepM2S => none
  | some .checkM2S =>
      if 0 < s.numCrossingSago2MonkeyGrass ∧ UNIDIRECTIONAL ≠ 0 then some (exitProcess s)
      else some (setPC s i .crossM2S)
  | some .crossM2S => some (setPC (completeM2S s) i .postM2S)
  | some .postM2S => some (setPC { s with driveway_sem := s.driveway_sem + 1 } i .loopTop)
  | some .returned => none

/-- A spurious wakeup of lizard `i`, which `condition_variable::wait` permits
at any time: the thread re-evaluates its predicate. -/
def spuriousStep (s : State) (i : Nat) : Option State :=
  match s.lizards[i]? with
  | some .asleepS2M => some (setPC s i .waitS2M)
  | some .asleepM2S => some (setPC s i .waitM2S)
  | _ => none

/-- One atomic action of cat `j`. -/
def catStep (s : State) (j : Nat) : Option State :=
  match s.cats[j]? with
  | none => none
  | some .loopTop => some (setCat s j (if s.running then .sleepNow else .returned))
  | some .sleepNow => some (setCat s j .readS2M)
  | some .readS2M => some (setCat s j (.readM2S s.numCrossingSago2MonkeyGrass))
  | some (.readM2S first) =>
      if catCheck first s.numCrossingMonkeyGrass2Sago then some (exitProcess s)
      else some (setCat s j .loopTop)
  | some .returned => none

/-- The schedulable actions: a step of a lizard, a spurious wakeup of a lizard,
a step of a cat, and `running = 0` in `main`. -/
inductive Action where
  | lizard (i : Nat)
  | spurious (i : Nat)
  | cat (j : Nat)
  | worldEnd
  deriving DecidableEq, Repr

/-- One transition of the process; nothing runs after `exit`. -/
def step (s : State) (a : Action) : Option State :=
  if s.exitStatus.isSome then none
  else
    match a with
    | .lizard i => lizardStep s i
    | .spurious i => spuriousStep s i
    | .cat j => catStep s j
    | .worldEnd => if s.running then some { s with running := false } else none

/-- Run a schedule; `none` when some action of it is not enabled. -/
def run (s : State) : List Action → Option State
  | [] => some s
  | a :: rest =>
      match step s a with
      | none => none
      | some t => run t rest

/-- The states some schedule reaches from an initial state. -/
def Reachable (s : State) : Prop :=
  ∃ nLizards nCats schedule, run (init nLizards nCats) schedule = some s

/-- The lizard holds a permit: it is between a `sem_wait` and its `sem_post`. -/
def holdsPermit : LizardPC → Bool
  | .waitS2M | .asleepS2M | .checkS2M | .crossS2M | .postS2M => true
  | .waitM2S | .asleepM2S | .checkM2S | .crossM2S | .postM2S => true
  | _ => false

/-- The lizard is between its `numCrossingSago2MonkeyGrass++` and its
`numCrossingSago2MonkeyGrass--`. -/
def countedS2M : LizardPC → Bool
  | .checkS2M | .crossS2M => true
  | _ => false

/-- The lizard is between its `numCrossingMonkeyGrass2Sago++` and its
`numCrossingMonkeyGrass2Sago--`. -/
def countedM2S : LizardPC → Bool
  | .checkM2S | .crossM2S => true
  | _ => false

/-- Permits in use: lizards between a `sem_wait` and its `sem_post`. -/
def permitsInUse (s : State) : Nat := countPC holdsPermit s.lizards

/-- Permits held by lizard `i` according to its program counter: 1 between a
`sem_wait` and its `sem_post`, else 0. -/
def holdsNow (s : State) (i : Nat) : Int :=
  match s.lizards[i]? with
  | some pc => if holdsPermit pc then 1 else 0
  | none => 0

/-- Gate operation performed when action `a` is taken in `s`, as seen by lizard
`i`: `1` for a `sem_wait` of lizard `i`, `-1` for a `sem_post` of lizard `i`,
`0` for every other action. -/
def gateDelta (s : State) (a : Action) (i : Nat) : Int :=
  match a with
  | .lizard j =>
      if j = i then
        match s.lizards[i]? with
        | some .semWaitS2M => 1
        | some .semWaitM2S => 1
        | some .postS2M => -1
        | some .postM2S => -1
        | _ => 0
      else 0
  | _ => 0

/-- Number of `sem_wait` calls minus number of `sem_post` calls that lizard `i`
executes along a schedule started in `s`. -/
def gateBalance (i : Nat) : State → List Action → Int
  | _, [] => 0
  | s, a :: rest =>
      match step s a with
      | none => 0
      | some t => gateDelta s a i + gateBalance i t rest

/-- The semaphore value and the permits in use add up to the initial value. -/
def GateInv (s : State) : Prop :=
  s.driveway_sem + permitsInUse s = MAX_LIZARD_CROSSING

/-- Each counter is the number of lizards between its increment and its
decrement. -/
def CountInv (s : State) : Prop :=
  s.numCrossingSago2MonkeyGrass = (countPC countedS2M s.lizards : Int) ∧
  s.numCrossingMonkeyGrass2Sago = (countPC countedM2S s.lizards : Int)

/-- The direction is `NONE` with both counters 0, or it is a direction whose
own counter is positive while the opposite counter is 0. -/
def DirectionInv (s : State) : Prop :=
  match s.currentDirection with
  | .NONE => s.numCrossingSago2MonkeyGrass = 0 ∧ s.numCrossingMonkeyGrass2Sago = 0
  | .SAGO_TO_MONKEY_GRASS =>
      0 < s.numCrossingSago2MonkeyGrass ∧ s.numCrossingMonkeyGrass2Sago = 0
  | .MONKEY_GRASS_TO_SAGO =>
      0 < s.numCrossingMonkeyGrass2Sago ∧ s.numCrossingSago2MonkeyGrass = 0

/-- Every value a cat has read and not yet used is a counter value of an
earlier state: between 0 and `MAX_LIZARD_CROSSING`. -/
def CatInv (s : State) : Prop :=
  ∀ (j : Nat) (first : Int), s.cats[j]? = some (CatPC.readM2S first) →
    0 ≤ first ∧ first ≤ (MAX_LIZARD_CROSSING : Int)

/-- The inductive invariant of lizardsUni.cpp. -/
def Inv (s : State) : Prop := GateInv s ∧ CountInv s ∧ DirectionInv s

end Uni

namespace Bi

/-- `#define UNIDIRECTIONAL 0` of lizards.cpp. -/
def UNIDIRECTIONAL : Nat := 0

/-- Program counter of a lizard thread in `Lizard::lizardThread` of lizards.cpp. -/
inductive LizardPC where
  /-- at the test `while(running)` -/
  | loopTop
  /-- inside `sleepNow()` -/
  | sleepNow
  /-- at `sem_wait` of `sago2MonkeyGrassIsSafe` -/
  | semWaitS2M
  /-- holds a permit; at the locked `numCrossingSago2MonkeyGrass++` of
  `crossSago2MonkeyGrass` -/
  | incrS2M
  /-- at the unlocked both-directions check of `crossSago2MonkeyGrass` -/
  | checkS2M
  /-- in `sleep(CROSS_SECONDS)`, before the locked decrement -/
  | crossS2M
  /-- at `sem_post` of `madeIt2MonkeyGrass` -/
  | postS2M
  /-- inside `eat()` -/
  | eat
  /-- at `sem_wait` of `monkeyGrass2SagoIsSafe` -/
  | semWaitM2S
  | incrM2S
  | checkM2S
  | crossM2S
  /-- at `sem_post` of `madeIt2Sago` -/
  | postM2S
  /-- the thread function has returned -/
  | returned
  deriving DecidableEq, Repr

/-- The globals of lizards.cpp, the semaphore value, the process exit status
(`none` while the process runs) and the program counters of all threads. -/
structure State where
  numCrossingSago2MonkeyGrass : Int
  numCrossingMonkeyGrass2Sago : Int
  driveway_sem : Nat
  running : Bool
  exitStatus : Option Int
  lizards : List LizardPC
  cats : List CatPC
  deriving DecidableEq, Repr

/-- State after the initialisation in `main`, with `nLizards` lizard threads and
`nCats` cat threads started. -/
def init (nLizards nCats : Nat) : State :=
  { numCrossingSago2MonkeyGrass := 0
    numCrossingMonkeyGrass2Sago := 0
    driveway_sem := MAX_LIZARD_CROSSING
    running := true
    exitStatus := none
    lizards := List.replicate nLizards .loopTop
    cats := List.replicate nCats .loopTop }

/-- Move lizard `i` to program counter `pc`. -/
def setPC (s : State) (i : Nat) (pc : LizardPC) : State :=
  { s with lizards := s.lizards.set i pc }

/-- Move cat `j` to program counter `pc`. -/
def setCat (s : State) (j : Nat) (pc : CatPC) : State :=
  { s with cats := s.cats.set j pc }

/-- `exit(-1)`. -/
def exitProcess (s : State) : State :=
  { s with exitStatus := some (-1) }

/-- The test `numCrossingMonkeyGrass2Sago && UNIDIRECTIONAL` of
`crossSago2MonkeyGrass`. -/
def pileUpS2M (s : State) : Bool :=
  decide (s.numCrossingMonkeyGrass2Sago ≠ 0) && decide (UNIDIRECTIONAL ≠ 0)

/-- The test `numCrossingSago2MonkeyGrass && UNIDIRECTIONAL` of
`crossMonkeyGrass2Sago`. -/
def pileUpM2S (s : State) : Bool :=
  decide (s.numCrossingSago2MonkeyGrass ≠ 0) && decide (UNIDIRECTIONAL ≠ 0)

/-- One atomic action of lizard `i`; `none` when the lizard is blocked, has
returned, or does not exist. -/
def lizardStep (s : State) (i : Nat) : Option State :=
  match s.lizards[i]? with
  | none => none
  | some .loopTop => some (setPC s i (if s.running then .sleepNow else .returned))
  | some .sleepNow => some (setPC s i .semWaitS2M)
  | some .semWaitS2M =>
      if 0 < s.driveway_sem then
        some (setPC { s with driveway_sem := s.driveway_sem - 1 } i .incrS2M)
      else none
  | some .incrS2M =>
      some (setPC
        { s with numCrossingSago2MonkeyGrass := wrapInt (s.numCrossingSago2MonkeyGrass + 1) }
        i .checkS2M)
  | some .checkS2M =>
      if pileUpS2M s then some (exitProcess s) else some (setPC s i .crossS2M)
  | some .crossS2M =>
      some (setPC
        { s with numCrossingSago2MonkeyGrass := wrapInt (s.numCrossingSago2MonkeyGrass - 1) }
        i .postS2M)
  | some .postS2M => some (setPC { s with driveway_sem := s.driveway_sem + 1 } i .eat)
  | some .eat => some (setPC s i .semWaitM2S)
  | some .semWaitM2S =>
      if 0 < s.driveway_sem then
        some (setPC { s with driveway_sem := s.driveway_sem - 1 } i .incrM2S)
      else none
  | some .incrM2S =>
      some (setPC
        { s with numCrossingMonkeyGrass2Sago := wrapInt (s.numCrossingMonkeyGrass2Sago + 1) }
        i .checkM2S)
  | some .checkM2S =>
      if pileUpM2S s then some (exitProcess s) else some (setPC s i .crossM2S)
  | some .crossM2S =>
      some (setPC
        { s with numCrossingMonkeyGrass2Sago := wrapInt (s.numCrossingMonkeyGrass2Sago - 1) }
        i .postM2S)
  | some .postM2S => some (setPC { s with driveway_sem := s.driveway_sem + 1 } i .loopTop)
  | some .returned => none

/-- One atomic action of cat `j`. -/
def catStep (s : State) (j : Nat) : Option State :=
  match s.cats[j]? with
  | none => none
  | some .loopTop => some (setCat s j (if s.running then .sleepNow else .returned))
  | some .sleepNow => some (setCat s j .readS2M)
  | some .readS2M => some (setCat s j (.readM2S s.numCrossingSago2MonkeyGrass))
  | some (.readM2S first) =>
      if catCheck first s.numCrossingMonkeyGrass2Sago then some (exitProcess s)
      else some (setCat s j .loopTop)
  | some .returned => none

/-- The schedulable actions: a step of a lizard, a step of a cat, and
`running = 0` in `main`. -/
inductive Action where
  | lizard (i : Nat)
  | cat (j : Nat)
  | worldEnd
  deriving DecidableEq, Repr

/-- One transition of the process; nothing runs after `exit`. -/
def step (s : State) (a : Action) : Option State :=
  if s.exitStatus.isSome then none
  else
    match a with
    | .lizard i => lizardStep s i
    | .cat j => catStep s j
    | .worldEnd => if s.running then some { s with running := false } else none

/-- Run a schedule; `none` when some action of it is not enabled. -/
def run (s : State) : List Action → Option State
  | [] => some s
  | a :: rest =>
      match step s a with
      | none => none
      | some t => run t rest

/-- The states some schedule reaches from an initial state. -/
def Reachable (s : State) : Prop :=
  ∃ nLizards nCats schedule, run (init nLizards nCats) schedule = some s

/-- The lizard holds a permit: it is between a `sem_wait` and its `sem_post`. -/
def holdsPermit : LizardPC → Bool
  | .incrS2M | .checkS2M | .crossS2M | .postS2M => true
  | .incrM2S | .checkM2S | .crossM2S | .postM2S => true
  | _ => false

/-- The lizard is between its `numCrossingSago2MonkeyGrass++` and its
`numCrossingSago2MonkeyGrass--`. -/
def countedS2M : LizardPC → Bool
  | .checkS2M | .crossS2M => true
  | _ => false

/-- The lizard is between its `numCrossingMonkeyGrass2Sago++` and its
`numCrossingMonkeyGrass2Sago--`. -/
def countedM2S : LizardPC → Bool
  | .checkM2S | .crossM2S => true
  | _ => false

/-- Permits in use: lizards between a `sem_wait` and its `sem_post`. -/
def permitsInUse (s : State) : Nat := countPC holdsPermit s.lizards

/-- Permits held by lizard `i` according to its program counter: 1 between a
`sem_wait` and its `sem_post`, else 0. -/
def holdsNow (s : State) (i : Nat) : Int :=
  match s.lizards[i]? with
  | some pc => if holdsPermit pc then 1 else 0
  | none => 0

/-- Gate operation performed when action `a` is taken in `s`, as seen by lizard
`i`: `1` for a `sem_wait` of lizard `i`, `-1` for a `sem_post` of lizard `i`,
`0` for every other action. -/
def gateDelta (s : State) (a : Action) (i : Nat) : Int :=
  match a with
  | .lizard j =>
      if j = i then
        match s.lizards[i]? with
        | some .semWaitS2M => 1
        | some .semWaitM2S => 1
        | some .postS2M => -1
        | some .postM2S => -1
        | _ => 0
      else 0
  | _ => 0

/-- Number of `sem_wait` calls minus number of `sem_post` calls that lizard `i`
executes along a schedule started in `s`. -/
def gateBalance (i : Nat) : State → List Action → Int
  | _, [] => 0
  | s, a :: rest =>
      match step s a with
      | none => 0
      | some t => gateDelta s a i + gateBalance i t rest

/-- The semaphore value and the permits in use add up to the initial value. -/
def GateInv (s : State) : Prop :=
  s.driveway_sem + permitsInUse s = MAX_LIZARD_CROSSING

/-- Each counter is the number of lizards between its increment and its
decrement. -/
def CountInv (s : State) : Prop :=
  s.numCrossingSago2MonkeyGrass = (countPC countedS2M s.lizards : Int) ∧
  s.numCrossingMonkeyGrass2Sago = (countPC countedM2S s.lizards : Int)

/-- Every value a cat has read and not yet used is a counter value of an
earlier state: between 0 and `MAX_LIZARD_CROSSING`. -/
def CatInv (s : State) : Prop :=
  ∀ (j : Nat) (first : Int), s.cats[j]? = some (CatPC.readM2S first) →
    0 ≤ first ∧ first ≤ (MAX_LIZARD_CROSSING : Int)

/-- The inductive invariant of lizards.cpp. -/
def Inv (s : State) : Prop := GateInv s ∧ CountInv s

end Bi

/-! ## Random durations -/

/-- The conversion `(int)x` of a `double`: truncation toward zero. -/
def truncToInt (x : ℚ) : Int := if 0 ≤ x then ⌊x⌋ else -⌊-x⌋

/-- The expression `1 + (int)(random() / (double)RAND_MAX * M)` of
`Lizard::sleepNow`, `Lizard::eat` and `Cat::sleepNow`, for the value `r` that
`random()` returned.  `RAND_MAX` comes from `stdlib.h` and is the parameter
`randMax`; the `double` arithmetic is computed exactly. -/
def randomSeconds (randMax r M : Nat) : Int :=
  1 + truncToInt ((r : ℚ) / (randMax : ℚ) * (M : ℚ))

/-- The local `sleepSeconds` of `Lizard::sleepNow`. -/
def Lizard.sleepSeconds (randMax r : Nat) : Int := randomSeconds randMax r MAX_LIZARD_SLEEP

/-- The local `eatSeconds` of `Lizard::eat`. -/
def Lizard.eatSeconds (randMax r : Nat) : Int := randomSeconds randMax r MAX_LIZARD_EAT

/-- The local `sleepSeconds` of `Cat::sleepNow`. -/
def Cat.sleepSeconds (randMax r : Nat) : Int := randomSeconds randMax r MAX_CAT_SLEEP


/-! ## Concrete schedules and states used to exercise the theorems -/

namespace Uni

/-- Lizard 0 wakes, takes a permit and claims the forward direction. -/
def oneForwardSchedule : List Action :=
  [.lizard 0, .lizard 0, .lizard 0, .lizard 0]

/-- State after `oneForwardSchedule` with two lizards and one cat: lizard 0 is
at the pile-up check of `crossSago2MonkeyGrass`. -/
def oneForward : State :=
  { currentDirection := .SAGO_TO_MONKEY_GRASS
    numCrossingSago2MonkeyGrass := 1
    numCrossingMonkeyGrass2Sago := 0
    driveway_sem := 3
    running := true
    exitStatus := none
    lizards := [.checkS2M, .loopTop]
    cats := [.loopTop] }

/-- From `oneForward`: lizard 0 finishes the forward crossing, eats, and claims
the backward direction. -/
def turnAroundSchedule : List Action :=
  [.lizard 0, .lizard 0, .lizard 0, .lizard 0, .lizard 0, .lizard 0]

/-- State after `turnAroundSchedule` from `oneForward`. -/
def oneBackward : State :=
  { currentDirection := .MONKEY_GRASS_TO_SAGO
    numCrossingSago2MonkeyGrass := 0
    numCrossingMonkeyGrass2Sago := 1
    driveway_sem := 3
    running := true
    exitStatus := none
    lizards := [.checkM2S, .loopTop]
    cats := [.loopTop] }

/-- State after the first three actions of `oneForwardSchedule`: lizard 0 holds a
permit and is about to evaluate the forward predicate. -/
def atEntry : State :=
  { currentDirection := .NONE
    numCrossingSago2MonkeyGrass := 0
    numCrossingMonkeyGrass2Sago := 0
    driveway_sem := 3
    running := true
    exitStatus := none
    lizards := [.waitS2M, .loopTop]
    cats := [.loopTop] }

/-- State one action after `oneForward`: lizard 0 is crossing forward. -/
def crossingForward : State :=
  { currentDirection := .SAGO_TO_MONKEY_GRASS
    numCrossingSago2MonkeyGrass := 1
    numCrossingMonkeyGrass2Sago := 0
    driveway_sem := 3
    running := true
    exitStatus := none
    lizards := [.crossS2M, .loopTop]
    cats := [.loopTop] }

/-- State after lizard 0 of `crossingForward` has completed its traversal. -/
def crossedForward : State :=
  { currentDirection := .NONE
    numCrossingSago2MonkeyGrass := 0
    numCrossingMonkeyGrass2Sago := 0
    driveway_sem := 3
    running := true
    exitStatus := none
    lizards := [.postS2M, .loopTop]
    cats := [.loopTop] }

/-- A cat wakes and reads the forward counter. -/
def catReadsSchedule : List Action := [.cat 0, .cat 0, .cat 0]

/-- State after `catReadsSchedule` with two lizards and one cat: the cat has
read `numCrossingSago2MonkeyGrass` and is about to read the other counter. -/
def catReading : State :=
  { currentDirection := .NONE
    numCrossingSago2MonkeyGrass := 0
    numCrossingMonkeyGrass2Sago := 0
    driveway_sem := 4
    running := true
    exitStatus := none
    lizards := [.loopTop, .loopTop]
    cats := [.readM2S 0] }

/-- Five lizards and one cat.  Lizard 4 crosses forward and comes back to the
`sem_wait` of the return leg; lizards 0 to 3 claim the forward direction; the
cat wakes and loads `numCrossingSago2MonkeyGrass` (4); lizards 0 to 3 finish
their crossing and lizard 0 posts its permit; lizard 4 takes the permit and
claims the backward direction; the cat loads `numCrossingMonkeyGrass2Sago` (1)
and compares. -/
def tornReadSchedule : List Action :=
  List.replicate 8 (.lizard 4) ++
  List.replicate 4 (.lizard 0) ++ List.replicate 4 (.lizard 1) ++
  List.replicate 4 (.lizard 2) ++ List.replicate 4 (.lizard 3) ++
  List.replicate 3 (.cat 0) ++
  List.replicate 2 (.lizard 0) ++ List.replicate 2 (.lizard 1) ++
  List.replicate 2 (.lizard 2) ++ List.replicate 2 (.lizard 3) ++
  [.lizard 0, .lizard 4, .lizard 4, .cat 0]

end Uni

namespace Bi

/-- Lizard 0 wakes, takes a permit and increments the forward counter. -/
def oneForwardSchedule : List Action :=
  [.lizard 0, .lizard 0, .lizard 0, .lizard 0]

/-- State after `oneForwardSchedule` with two lizards and one cat. -/
def oneForward : State :=
  { numCrossingSago2MonkeyGrass := 1
    numCrossingMonkeyGrass2Sago := 0
    driveway_sem := 3
    running := true
    exitStatus := none
    lizards := [.checkS2M, .loopTop]
    cats := [.loopTop] }

/-- A cat wakes and reads the forward counter. -/
def catReadsSchedule : List Action := [.cat 0, .cat 0, .cat 0]

/-- State after `catReadsSchedule` with two lizards and one cat. -/
def catReading : State :=
  { numCrossingSago2MonkeyGrass := 0
    numCrossingMonkeyGrass2Sago := 0
    driveway_sem := 4
    running := true
    exitStatus := none
    lizards := [.loopTop, .loopTop]
    cats := [.readM2S 0] }

/-- Five lizards and one cat.  Lizard 4 crosses forward and comes back to the
`sem_wait` of the return leg; lizards 0 to 3 increment the forward counter; the
cat wakes and loads `numCrossingSago2MonkeyGrass` (4); lizard 0 finishes its
crossing and posts its permit; lizard 4 takes the permit and increments the
backward counter; the cat loads `numCrossingMonkeyGrass2Sago` (1) and compares. -/
def tornReadSchedule : List Action :=
  List.replicate 8 (.lizard 4) ++
  List.replicate 4 (.lizard 0) ++ List.replicate 4 (.lizard 1) ++
  List.replicate 4 (.lizard 2) ++ List.replicate 4 (.lizard 3) ++
  List.replicate 3 (.cat 0) ++
  List.replicate 3 (.lizard 0) ++
  [.lizard 4, .lizard 4, .cat 0]

/-- Lizard 0 crosses forward, eats and starts the return crossing; lizard 1
then starts a forward crossing. -/
def coexistSchedule : List Action :=
  List.replicate 10 (.lizard 0) ++ List.replicate 4 (.lizard 1)

end Bi

/-! ## Arbiters with a simplified entry guard -/

namespace Uni

/-- Entry guard "the opposite count is 0", for the forward direction. -/
def countGuardS2M (s : State) : Bool := s.numCrossingMonkeyGrass2Sago == 0

/-- Entry guard "the opposite count is 0", for the backward direction. -/
def countGuardM2S (s : State) : Bool := s.numCrossingSago2MonkeyGrass == 0

/-- Entry guard "`currentDirection` is not the opposite direction", forward. -/
def directionGuardS2M (s : State) : Bool := s.currentDirection != .MONKEY_GRASS_TO_SAGO

/-- Entry guard "`currentDirection` is not the opposite direction", backward. -/
def directionGuardM2S (s : State) : Bool := s.currentDirection != .SAGO_TO_MONKEY_GRASS

/-- Lizard step of an arbiter that waits on the guards `gS2M` and `gM2S` where
lizardsUni.cpp waits on `predS2M` and `predM2S`; every other action is the one
of `lizardStep`. -/
def lizardStepWith (gS2M gM2S : State → Bool) (s : State) (i : Nat) : Option State :=
  match s.lizards[i]? with
  | some .waitS2M =>
      if gS2M s then some (setPC (claimS2M s) i .checkS2M)
      else some (setPC s i .asleepS2M)
  | some .waitM2S =>
      if gM2S s then some (setPC (claimM2S s) i .checkM2S)
      else some (setPC s i .asleepM2S)
  | _ => lizardStep s i

/-- One transition of the process with the arbiter of `lizardStepWith`. -/
def stepWith (gS2M gM2S : State → Bool) (s : State) (a : Action) : Option State :=
  if s.exitStatus.isSome then none
  else
    match a with
    | .lizard i => lizardStepWith gS2M gM2S s i
    | .spurious i => spuriousStep s i
    | .cat j => catStep s j
    | .worldEnd => if s.running then some { s with running := false } else none

/-- Run a schedule with the arbiter of `lizardStepWith`. -/
def runWith (gS2M gM2S : State → Bool) (s : State) : List Action → Option State
  | [] => some s
  | a :: rest =>
      match stepWith gS2M gM2S s a with
      | none => none
      | some t => runWith gS2M gM2S t rest

end Uni

/-! ## Lizards asleep on the condition variable -/

namespace Uni

/-- The lizard is blocked inside `direction_CV.wait` of `sago2MonkeyGrassIsSafe`. -/
def isAsleepS2M : LizardPC → Bool
  | .asleepS2M => true
  | _ => false

/-- The lizard is blocked inside `direction_CV.wait` of `monkeyGrass2SagoIsSafe`. -/
def isAsleepM2S : LizardPC → Bool
  | .asleepM2S => true
  | _ => false

/-- Lizards are asleep on the condition variable only while the direction is
the opposite of the one they want. -/
def AsleepInv (s : State) : Prop :=
  (s.currentDirection ≠ .MONKEY_GRASS_TO_SAGO → countPC isAsleepS2M s.lizards = 0) ∧
  (s.currentDirection ≠ .SAGO_TO_MONKEY_GRASS → countPC isAsleepM2S s.lizards = 0)

end Uni

namespace Uni

/-- State in which lizard 0 crosses backward while lizard 1, holding a permit,
is asleep on the condition variable waiting for the forward direction. -/
def waiterAsleep : State :=
  { currentDirection := .MONKEY_GRASS_TO_SAGO
    numCrossingSago2MonkeyGrass := 0
    numCrossingMonkeyGrass2Sago := 1
    driveway_sem := 2
    running := true
    exitStatus := none
    lizards := [.crossM2S, .asleepS2M]
    cats := [.loopTop] }

/-- Schedule reaching `waiterAsleep` with two lizards and one cat. -/
def waiterAsleepSchedule : List Action :=
  List.replicate 11 (.lizard 0) ++ List.replicate 4 (.lizard 1)

/-- State after lizard 0 of `waiterAsleep` has completed its crossing: the
direction is reset and lizard 1 is back at its predicate. -/
def waiterNotified : State :=
  { currentDirection := .NONE
    numCrossingSago2MonkeyGrass := 0
    numCrossingMonkeyGrass2Sago := 0
    driveway_sem := 2
    running := true
    exitStatus := none
    lizards := [.postM2S, .waitS2M]
    cats := [.loopTop] }

end Uni

/-! ## Blocked lizards and progress -/

namespace Uni

/-- The lizard is mid-traversal: counted in one of the two directions. -/
def traversing : LizardPC → Bool
  | .checkS2M | .crossS2M | .checkM2S | .crossM2S => true
  | _ => false

/-- The lizard is past its traversal and still holds its permit: it is at the
`sem_post` of `madeIt2MonkeyGrass` or `madeIt2Sago`. -/
def pastTraversal : LizardPC → Bool
  | .postS2M | .postM2S => true
  | _ => false

/-- The lizard holds a permit and is about to evaluate its entry predicate. -/
def atPredicate : LizardPC → Bool
  | .waitS2M | .waitM2S => true
  | _ => false

/-- Lizard `i` is blocked in `sem_wait`: no permit is available. -/
def blockedInSemWait (s : State) (i : Nat) : Prop :=
  (s.lizards[i]? = some .semWaitS2M ∨ s.lizards[i]? = some .semWaitM2S) ∧ s.driveway_sem = 0

/-- Lizard `i` is blocked on the direction predicate: asleep on the condition
variable, or evaluating a predicate that is false. -/
def blockedOnDirection (s : State) (i : Nat) : Prop :=
  s.lizards[i]? = some .asleepS2M ∨ s.lizards[i]? = some .asleepM2S ∨
    (s.lizards[i]? = some .waitS2M ∧ predS2M s = false) ∨
    (s.lizards[i]? = some .waitM2S ∧ predM2S s = false)

/-- Lizard `j` can proceed without waiting on anyone: its next action is
enabled, does not end the process and does not put it to sleep. -/
def canProceed (s : State) (j : Nat) : Bool :=
  match step s (.lizard j) with
  | none => false
  | some t =>
      t.exitStatus.isNone &&
        (match t.lizards[j]? with
         | some pc => !(isAsleepS2M pc || isAsleepM2S pc)
         | none => false)

/-- Four lizards have taken a permit and not yet evaluated their predicate;
lizard 4 is at `sem_wait` with no permit left. -/
def gateFull : State :=
  { currentDirection := .NONE
    numCrossingSago2MonkeyGrass := 0
    numCrossingMonkeyGrass2Sago := 0
    driveway_sem := 0
    running := true
    exitStatus := none
    lizards := [.waitS2M, .waitS2M, .waitS2M, .waitS2M, .semWaitS2M]
    cats := [] }

/-- Schedule reaching `gateFull` with five lizards and no cat. -/
def gateFullSchedule : List Action :=
  List.replicate 3 (.lizard 0) ++ List.replicate 3 (.lizard 1) ++
  List.replicate 3 (.lizard 2) ++ List.replicate 3 (.lizard 3) ++
  List.replicate 2 (.lizard 4)

end Uni

/-! ## Counter operations of each lizard -/

namespace Uni

/-- Whether lizard `i` is counted forward according to its program counter. -/
def countedNowS2M (s : State) (i : Nat) : Int :=
  match s.lizards[i]? with
  | some pc => if countedS2M pc then 1 else 0
  | none => 0

/-- Whether lizard `i` is counted backward according to its program counter. -/
def countedNowM2S (s : State) (i : Nat) : Int :=
  match s.lizards[i]? with
  | some pc => if countedM2S pc then 1 else 0
  | none => 0

/-- Operation on `numCrossingSago2MonkeyGrass` performed when action `a` is
taken in `s`, as seen by lizard `i`: `1` for its increment, `-1` for its
decrement, `0` for every other action. -/
def forwardDelta (s : State) (a : Action) (i : Nat) : Int :=
  match a with
  | .lizard j =>
      if j = i then
        match s.lizards[i]? with
        | some .waitS2M => if predS2M s then 1 else 0
        | some .crossS2M => -1
        | _ => 0
      else 0
  | _ => 0

/-- Operation on `numCrossingMonkeyGrass2Sago` performed when action `a` is
taken in `s`, as seen by lizard `i`. -/
def backwardDelta (s : State) (a : Action) (i : Nat) : Int :=
  match a with
  | .lizard j =>
      if j = i then
        match s.lizards[i]? with
        | some .waitM2S => if predM2S s then 1 else 0
        | some .crossM2S => -1
        | _ => 0
      else 0
  | _ => 0

/-- Forward increments minus forward decrements that lizard `i` executes along
a schedule started in `s`. -/
def forwardBalance (i : Nat) : State → List Action → Int
  | _, [] => 0
  | s, a :: rest =>
      match step s a with
      | none => 0
      | some t => forwardDelta s a i + forwardBalance i t rest

/-- Backward increments minus backward decrements that lizard `i` executes
along a schedule started in `s`. -/
def backwardBalance (i : Nat) : State → List Action → Int
  | _, [] => 0
  | s, a :: rest =>
      match step s a with
      | none => 0
      | some t => backwardDelta s a i + backwardBalance i t rest

end Uni

namespace Bi

/-- Whether lizard `i` is counted forward according to its program counter. -/
def countedNowS2M (s : State) (i : Nat) : Int :=
  match s.lizards[i]? with
  | some pc => if countedS2M pc then 1 else 0
  | none => 0

/-- Whether lizard `i` is counted backward according to its program counter. -/
def countedNowM2S (s : State) (i : Nat) : Int :=
  match s.lizards[i]? with
  | some pc => if countedM2S pc then 1 else 0
  | none => 0

/-- Operation on `numCrossingSago2MonkeyGrass` performed when action `a` is
taken in `s`, as seen by lizard `i`: `1` for its increment, `-1` for its
decrement, `0` for every other action. -/
def forwardDelta (s : State) (a : Action) (i : Nat) : Int :=
  match a with
  | .lizard j =>
      if j = i then
        match s.lizards[i]? with
        | some .incrS2M => 1
        | some .crossS2M => -1
        | _ => 0
      else 0
  | _ => 0

/-- Operation on `numCrossingMonkeyGrass2Sago` performed when action `a` is
taken in `s`, as seen by lizard `i`. -/
def backwardDelta (s : State) (a : Action) (i : Nat) : Int :=
  match a with
  | .lizard j =>
      if j = i then
        match s.lizards[i]? with
        | some .incrM2S => 1
        | some .crossM2S => -1
        | _ => 0
      else 0
  | _ => 0

/-- Forward increments minus forward decrements that lizard `i` executes along
a schedule started in `s`. -/
def forwardBalance (i : Nat) : State → List Action → Int
  | _, [] => 0
  | s, a :: rest =>
      match step s a with
      | none => 0
      | some t => forwardDelta s a i + forwardBalance i t rest

/-- Backward increments minus backward decrements that lizard `i` executes
along a schedule started in `s`. -/
def backwardBalance (i : Nat) : State → List Action → Int
  | _, [] => 0
  | s, a :: rest =>
      match step s a with
      | none => 0
      | some t => backwardDelta s a i + backwardBalance i t rest

end Bi

/-! ## Mutex acquisitions of a lizard -/

/-- The mutexes a lizard takes: `counters` is `crossing_mutex` in lizards.cpp and
`direction_mutex` in lizardsUni.cpp; `cout` is `cout_mutex`. -/
inductive Mutex where
  | counters
  | cout
  deriving DecidableEq, Repr

/-- A lock operation: construction or destruction of a `lock_guard` or
`unique_lock`, or the release and re-acquisition inside `condition_variable::wait`. -/
inductive LockOp where
  | acquire (m : Mutex)
  | release (m : Mutex)
  deriving DecidableEq, Repr

/-- The block `if(debug) { lock_guard<mutex> lock(cout_mutex); cout << ...; }`. -/
def debugPrint (debug : Bool) : List LockOp :=
  if debug then [.acquire .cout, .release .cout] else []

/-- Mutexes held after one lock operation, most recently acquired first. -/
def applyLock (held : List Mutex) : LockOp → List Mutex
  | .acquire m => m :: held
  | .release m => held.erase m

/-- Mutexes held after a sequence of lock operations. -/
def heldAfter (held : List Mutex) : List LockOp → List Mutex
  | [] => held
  | op :: rest => heldAfter (applyLock held op) rest

/-- Every set of held mutexes a thread passes through while performing a
sequence of lock operations, the first and the last included. -/
def heldAlong (held : List Mutex) : List LockOp → List (List Mutex)
  | [] => [held]
  | op :: rest => held :: heldAlong (applyLock held op) rest

namespace Uni

/-- Lock operations of `Lizard::sleepNow`. -/
def sleepNowLocks (debug : Bool) : List LockOp := debugPrint debug ++ debugPrint debug

/-- Lock operations of `direction_CV.wait(lock, pred)` when the thread blocks
`blocks` times: each block releases `direction_mutex` and re-acquires it. -/
def cvWaitLocks : Nat → List LockOp
  | 0 => []
  | blocks + 1 => [.release .counters, .acquire .counters] ++ cvWaitLocks blocks

/-- Lock operations of `sago2MonkeyGrassIsSafe` and of `monkeyGrass2SagoIsSafe`:
the `unique_lock` on `direction_mutex` lives until the function returns, so the
last `if(debug)` block runs inside it. -/
def isSafeLocks (debug : Bool) (blocks : Nat) : List LockOp :=
  debugPrint debug ++ [.acquire .counters] ++ cvWaitLocks blocks ++ debugPrint debug ++
    [.release .counters]

/-- Lock operations of `crossSago2MonkeyGrass` and of `crossMonkeyGrass2Sago`
on the path where the pile-up check does not exit. -/
def crossLocks (debug : Bool) : List LockOp :=
  debugPrint debug ++ [.acquire .counters, .release .counters] ++ debugPrint debug ++
    [.acquire .counters, .release .counters]

/-- Lock operations of `madeIt2MonkeyGrass` and of `madeIt2Sago`. -/
def madeItLocks (debug : Bool) : List LockOp := debugPrint debug

/-- Lock operations of `Lizard::eat`. -/
def eatLocks (debug : Bool) : List LockOp := debugPrint debug ++ debugPrint debug

/-- Lock operations of one iteration of the loop of `lizardThread`, blocking
`blocksS2M` times in the forward wait and `blocksM2S` times in the backward one. -/
def iterationLocks (debug : Bool) (blocksS2M blocksM2S : Nat) : List LockOp :=
  sleepNowLocks debug ++ isSafeLocks debug blocksS2M ++ crossLocks debug ++
    madeItLocks debug ++ eatLocks debug ++ isSafeLocks debug blocksM2S ++ crossLocks debug ++
    madeItLocks debug

/-- Lock operations of the loop of `lizardThread`, one pair of block counts per
iteration. -/
def loopLocks (debug : Bool) : List (Nat × Nat) → List LockOp
  | [] => []
  | p :: rest => iterationLocks debug p.1 p.2 ++ loopLocks debug rest

/-- Lock operations of `Lizard::lizardThread` in lizardsUni.cpp. -/
def lizardThreadLocks (debug : Bool) (iterations : List (Nat × Nat)) : List LockOp :=
  debugPrint debug ++ loopLocks debug iterations

end Uni

namespace Bi

/-- Lock operations of `Lizard::sleepNow`. -/
def sleepNowLocks (debug : Bool) : List LockOp := debugPrint debug ++ debugPrint debug

/-- Lock operations of `sago2MonkeyGrassIsSafe` and of `monkeyGrass2SagoIsSafe`. -/
def isSafeLocks (debug : Bool) : List LockOp := debugPrint debug ++ debugPrint debug

/-- Lock operations of `crossSago2MonkeyGrass` and of `crossMonkeyGrass2Sago`
on the path where the both-directions check does not exit. -/
def crossLocks (debug : Bool) : List LockOp :=
  debugPrint debug ++ [.acquire .counters, .release .counters] ++ debugPrint debug ++
    [.acquire .counters, .release .counters]

/-- Lock operations of `madeIt2MonkeyGrass` and of `madeIt2Sago`. -/
def madeItLocks (debug : Bool) : List LockOp := debugPrint debug

/-- Lock operations of `Lizard::eat`. -/
def eatLocks (debug : Bool) : List LockOp := debugPrint debug ++ debugPrint debug

/-- Lock operations of one iteration of the loop of `lizardThread`. -/
def iterationLocks (debug : Bool) : List LockOp :=
  sleepNowLocks debug ++ isSafeLocks debug ++ crossLocks debug ++ madeItLocks debug ++
    eatLocks debug ++ isSafeLocks debug ++ crossLocks debug ++ madeItLocks debug

/-- Lock operations of `iterations` iterations of the loop of `lizardThread`. -/
def loopLocks (debug : Bool) : Nat → List LockOp
  | 0 => []
  | iterations + 1 => iterationLocks debug ++ loopLocks debug iterations

/-- Lock operations of `Lizard::lizardThread` in lizards.cpp. -/
def lizardThreadLocks (debug : Bool) (iterations : Nat) : List LockOp :=
  debugPrint debug ++ loopLocks debug iterations

end Bi

/-- The lizard holds at most one mutex. -/
def atMostOne (held : List Mutex) : Prop := held.length ≤ 1

/-- The lizard holds nothing, one mutex, or `cout_mutex` taken while holding the
counters mutex. -/
def coutInsideCounters (held : List Mutex) : Prop :=
  held = [] ∨ held = [.counters] ∨ held = [.cout] ∨ held = [.cout, .counters]

/-- A sequence of lock operations started with `held` ends with `final` and
passes only through sets of held mutexes satisfying `ok`. -/
def LocksSafe (ok : List Mutex → Prop) (held : List Mutex) (ops : List LockOp)
    (final : List Mutex) : Prop :=
  heldAfter held ops = final ∧ ∀ h ∈ heldAlong held ops, ok h

/-! ## Shutdown -/

/-- Lifecycle steps a cat still has to finish in its current iteration. -/
def catStepsLeft : CatPC → Nat
  | .loopTop => 0
  | .sleepNow => 2
  | .readS2M => 1
  | .readM2S _ => 1
  | .returned => 0

namespace Uni

/-- Lifecycle steps (`sleepNow` .. `madeIt2Sago`) a lizard still has to finish
in its current loop iteration. -/
def stepsLeft : LizardPC → Nat
  | .loopTop => 0
  | .sleepNow => 8
  | .semWaitS2M | .waitS2M | .asleepS2M => 7
  | .checkS2M | .crossS2M => 6
  | .postS2M => 5
  | .eat => 4
  | .semWaitM2S | .waitM2S | .asleepM2S => 3
  | .checkM2S | .crossM2S => 2
  | .postM2S => 1
  | .returned => 0

/-- Lifecycle steps lizard `i` still has to finish in its current iteration. -/
def stepsLeftOf (s : State) (i : Nat) : Nat :=
  match s.lizards[i]? with
  | some pc => stepsLeft pc
  | none => 0

/-- Lifecycle steps cat `j` still has to finish in its current iteration. -/
def catStepsLeftOf (s : State) (j : Nat) : Nat :=
  match s.cats[j]? with
  | some pc => catStepsLeft pc
  | none => 0

/-- The schedule `tornReadSchedule` with `running = 0` executed between the two
loads of the cat. -/
def shutdownTornReadSchedule : List Action :=
  List.replicate 8 (.lizard 4) ++
  List.replicate 4 (.lizard 0) ++ List.replicate 4 (.lizard 1) ++
  List.replicate 4 (.lizard 2) ++ List.replicate 4 (.lizard 3) ++
  List.replicate 3 (.cat 0) ++ [.worldEnd] ++
  List.replicate 2 (.lizard 0) ++ List.replicate 2 (.lizard 1) ++
  List.replicate 2 (.lizard 2) ++ List.replicate 2 (.lizard 3) ++
  [.lizard 0, .lizard 4, .lizard 4, .cat 0]

end Uni

namespace Bi

/-- Lifecycle steps (`sleepNow` .. `madeIt2Sago`) a lizard still has to finish
in its current loop iteration. -/
def stepsLeft : LizardPC → Nat
  | .loopTop => 0
  | .sleepNow => 8
  | .semWaitS2M => 7
  | .incrS2M | .checkS2M | .crossS2M => 6
  | .postS2M => 5
  | .eat => 4
  | .semWaitM2S => 3
  | .incrM2S | .checkM2S | .crossM2S => 2
  | .postM2S => 1
  | .returned => 0

/-- Lifecycle steps lizard `i` still has to finish in its current iteration. -/
def stepsLeftOf (s : State) (i : Nat) : Nat :=
  match s.lizards[i]? with
  | some pc => stepsLeft pc
  | none => 0

/-- Lifecycle steps cat `j` still has to finish in its current iteration. -/
def catStepsLeftOf (s : State) (j : Nat) : Nat :=
  match s.cats[j]? with
  | some pc => catStepsLeft pc
  | none => 0

/-- The schedule `tornReadSchedule` with `running = 0` executed between the two
loads of the cat. -/
def shutdownTornReadSchedule : List Action :=
  List.replicate 8 (.lizard 4) ++
  List.replicate 4 (.lizard 0) ++ List.replicate 4 (.lizard 1) ++
  List.replicate 4 (.lizard 2) ++ List.replicate 4 (.lizard 3) ++
  List.replicate 3 (.cat 0) ++ [.worldEnd] ++
  List.replicate 3 (.lizard 0) ++
  [.lizard 4, .lizard 4, .cat 0]

end Bi

/-! ## Counting lemmas -/

theorem wrapInt_eq (x : Int) (h1 : -2147483648 ≤ x) (h2 : x ≤ 2147483647) :
    wrapInt x = x := by
  unfold wrapInt
  omega

theorem countPC_nil {α : Type} (p : α → Bool) : countPC p ([] : List α) = 0 := rfl

theorem countPC_cons {α : Type} (p : α → Bool) (x : α) (xs : List α) :
    countPC p (x :: xs) = (if p x then 1 else 0) + countPC p xs := rfl

theorem countPC_append {α : Type} (p : α → Bool) (xs ys : List α) :
    countPC p (xs ++ ys) = countPC p xs + countPC p ys := by
  induction xs with
  | nil => simp [countPC]
  | cons x xs ih => simp [countPC, ih, Nat.add_assoc]

theorem countPC_map {α : Type} (p : α → Bool) (f : α → α) (hf : ∀ x, p (f x) = p x)
    (xs : List α) : countPC p (xs.map f) = countPC p xs := by
  induction xs with
  | nil => rfl
  | cons x xs ih => simp [countPC, ih, hf]

theorem countPC_replicate {α : Type} (p : α → Bool) (x : α) (hx : p x = false) (n : Nat) :
    countPC p (List.replicate n x) = 0 := by
  induction n with
  | zero => rfl
  | succ n ih => simp [List.replicate_succ, countPC, ih, hx]

theorem countPC_add_le {α : Type} (p q r : α → Bool)
    (h : ∀ x, (if p x then 1 else 0) + (if q x then 1 else 0) ≤ (if r x then 1 else 0))
    (xs : List α) : countPC p xs + countPC q xs ≤ countPC r xs := by
  induction xs with
  | nil => simp [countPC]
  | cons x xs ih =>
      have hx := h x
      simp only [countPC]
      omega

/-- A list with a thread at index `i` splits around that thread, and replacing
the thread replaces the middle element. -/
theorem split_at_thread {α : Type} (l : List α) (i : Nat) (x : α) (h : l[i]? = some x) :
    ∃ l1 l2, l = l1 ++ x :: l2 ∧ l1.length = i ∧ ∀ y, l.set i y = l1 ++ y :: l2 := by
  induction l generalizing i with
  | nil => simp at h
  | cons a l ih =>
      cases i with
      | zero =>
          simp at h
          subst h
          exact ⟨[], l, rfl, rfl, fun y => rfl⟩
      | succ i =>
          simp at h
          obtain ⟨l1, l2, h1, h2, h3⟩ := ih i h
          refine ⟨a :: l1, l2, by simp [h1], by simp [h2], fun y => ?_⟩
          simp [List.set, h3 y]

/-- Replacing the thread in the middle of a list split at index `i`. -/
theorem set_mid {α : Type} (l1 l2 : List α) (x y : α) (i : Nat) (h : l1.length = i) :
    (l1 ++ x :: l2).set i y = l1 ++ y :: l2 := by
  subst h
  induction l1 with
  | nil => rfl
  | cons a l1 ih => simp [List.set, ih]

/-! ## The invariant of lizardsUni.cpp -/

namespace Uni

theorem holdsPermit_wake (pc : LizardPC) : holdsPermit (wake pc) = holdsPermit pc := by
  cases pc <;> rfl

theorem countedS2M_wake (pc : LizardPC) : countedS2M (wake pc) = countedS2M pc := by
  cases pc <;> rfl

theorem countedM2S_wake (pc : LizardPC) : countedM2S (wake pc) = countedM2S pc := by
  cases pc <;> rfl

theorem uni_counted_le_holds (l : List LizardPC) :
    countPC countedS2M l + countPC countedM2S l ≤ countPC holdsPermit l := by
  apply countPC_add_le
  intro pc
  cases pc <;> simp [countedS2M, countedM2S, holdsPermit]

theorem uni_inv_init (nLizards nCats : Nat) : Inv (init nLizards nCats) := by
  refine ⟨?_, ⟨?_, ?_⟩, ?_⟩
  · simp [GateInv, permitsInUse, init, countPC_replicate, holdsPermit]
  · simp [init, countPC_replicate, countedS2M]
  · simp [init, countPC_replicate, countedM2S]
  · simp [DirectionInv, init]

theorem uni_inv_lizardStep (s t : State) (i : Nat) (h : Inv s) (hs : lizardStep s i = some t) :
    Inv t := by
  obtain ⟨dir, f, b, sem, rn, ex, lz, cs⟩ := s
  obtain ⟨hg, ⟨hf, hb⟩, hd⟩ := h
  simp only [GateInv, permitsInUse, MAX_LIZARD_CROSSING] at hg
  simp only at hf hb
  simp only [DirectionInv] at hd
  unfold lizardStep at hs
  simp only at hs
  split at hs
  all_goals try contradiction
  all_goals
    rename_i heq
    obtain ⟨l1, l2, rfl, hlen, -⟩ := split_at_thread lz i _ heq
    have b1 := uni_counted_le_holds l1
    have b2 := uni_counted_le_holds l2
    simp only [countPC_append, countPC_cons, holdsPermit, countedS2M, countedM2S] at hg hf hb
    simp only [setPC, claimS2M, claimM2S, completeS2M, completeM2S, exitProcess, notify_all,
      predS2M, predM2S, UNIDIRECTIONAL] at hs
  all_goals
    repeat' split at hs
  all_goals try contradiction
  all_goals
    simp only [Option.some.injEq] at hs
    subst hs
    have hlen2 : (List.map wake l1).length = i := by simpa using hlen
    simp only [Inv, GateInv, CountInv, DirectionInv, permitsInUse, MAX_LIZARD_CROSSING,
      set_mid _ _ _ _ _ hlen, set_mid _ _ _ _ _ hlen2, List.map_append, List.map_cons, List.length_map, countPC_append,
      countPC_cons, countPC_map _ _ holdsPermit_wake, countPC_map _ _ countedS2M_wake,
      countPC_map _ _ countedM2S_wake, holdsPermit, countedS2M, countedM2S, wake, wrapInt] at *
  all_goals
    cases dir <;> simp at * <;> omega

theorem uni_inv_spuriousStep (s t : State) (i : Nat) (h : Inv s)
    (hs : spuriousStep s i = some t) : Inv t := by
  obtain ⟨dir, f, b, sem, rn, ex, lz, cs⟩ := s
  obtain ⟨hg, ⟨hf, hb⟩, hd⟩ := h
  simp only [GateInv, permitsInUse, MAX_LIZARD_CROSSING] at hg
  simp only at hf hb
  unfold spuriousStep at hs
  simp only at hs
  split at hs
  all_goals try contradiction
  all_goals
    rename_i heq
    obtain ⟨l1, l2, rfl, hlen, -⟩ := split_at_thread lz i _ heq
    simp only [countPC_append, countPC_cons, holdsPermit, countedS2M, countedM2S] at hg hf hb
    simp only [setPC, Option.some.injEq] at hs
    subst hs
    simp only [Inv, GateInv, CountInv, DirectionInv, permitsInUse, MAX_LIZARD_CROSSING,
      set_mid _ _ _ _ _ hlen, countPC_append, countPC_cons, holdsPermit, countedS2M,
      countedM2S] at *
    exact ⟨hg, ⟨hf, hb⟩, hd⟩

/-- A cat step changes nothing but the cat's program counter or the exit status. -/
theorem uni_catStep_shared (s t : State) (j : Nat) (hs : catStep s j = some t) :
    t.currentDirection = s.currentDirection ∧
    t.numCrossingSago2MonkeyGrass = s.numCrossingSago2MonkeyGrass ∧
    t.numCrossingMonkeyGrass2Sago = s.numCrossingMonkeyGrass2Sago ∧
    t.driveway_sem = s.driveway_sem ∧ t.lizards = s.lizards ∧ t.running = s.running := by
  unfold catStep at hs
  split at hs
  all_goals try contradiction
  all_goals
    repeat' split at hs
  all_goals
    simp only [Option.some.injEq] at hs
    subst hs
    simp [setCat, exitProcess]

theorem uni_inv_of_shared (s t : State) (h : Inv s)
    (hd : t.currentDirection = s.currentDirection)
    (hf : t.numCrossingSago2MonkeyGrass = s.numCrossingSago2MonkeyGrass)
    (hb : t.numCrossingMonkeyGrass2Sago = s.numCrossingMonkeyGrass2Sago)
    (hg : t.driveway_sem = s.driveway_sem) (hl : t.lizards = s.lizards) : Inv t := by
  unfold Inv GateInv CountInv DirectionInv permitsInUse at *
  rw [hd, hf, hb, hg, hl]
  exact h

theorem uni_inv_step (s t : State) (a : Action) (h : Inv s) (hs : step s a = some t) :
    Inv t := by
  unfold step at hs
  split at hs
  · contradiction
  · cases a with
    | lizard i => exact uni_inv_lizardStep s t i h hs
    | spurious i => exact uni_inv_spuriousStep s t i h hs
    | cat j =>
        obtain ⟨h1, h2, h3, h4, h5, -⟩ := uni_catStep_shared s t j hs
        exact uni_inv_of_shared s t h h1 h2 h3 h4 h5
    | worldEnd =>
        simp only at hs
        split at hs
        · simp only [Option.some.injEq] at hs
          subst hs
          exact uni_inv_of_shared s _ h rfl rfl rfl rfl rfl
        · contradiction

theorem uni_inv_run (schedule : List Action) (s t : State) (h : Inv s)
    (hs : run s schedule = some t) : Inv t := by
  induction schedule generalizing s with
  | nil =>
      simp only [run, Option.some.injEq] at hs
      subst hs
      exact h
  | cons a rest ih =>
      simp only [run] at hs
      split at hs
      · contradiction
      · rename_i u hu
        exact ih u (uni_inv_step s u a h hu) hs

theorem uni_inv_reachable (s : State) (h : Reachable s) : Inv s := by
  obtain ⟨n, m, schedule, hs⟩ := h
  exact uni_inv_run schedule _ s (uni_inv_init n m) hs

/-- Running a schedule and then another is running their concatenation. -/
theorem uni_run_append (xs ys : List Action) (s : State) :
    run s (xs ++ ys) = (run s xs).bind (fun t => run t ys) := by
  induction xs generalizing s with
  | nil => rfl
  | cons a rest ih =>
      simp only [List.cons_append, run]
      cases step s a with
      | none => rfl
      | some u => exact ih u

theorem uni_reachable_run (schedule : List Action) (s t : State) (h : Reachable s)
    (hs : run s schedule = some t) : Reachable t := by
  obtain ⟨n, m, pre, hp⟩ := h
  refine ⟨n, m, pre ++ schedule, ?_⟩
  rw [uni_run_append, hp]
  exact hs

end Uni

/-! ## The invariant of lizards.cpp -/

namespace Bi

theorem bi_counted_le_holds (l : List LizardPC) :
    countPC countedS2M l + countPC countedM2S l ≤ countPC holdsPermit l := by
  apply countPC_add_le
  intro pc
  cases pc <;> simp [countedS2M, countedM2S, holdsPermit]

theorem bi_inv_init (nLizards nCats : Nat) : Inv (init nLizards nCats) := by
  refine ⟨?_, ?_, ?_⟩
  · simp [GateInv, permitsInUse, init, countPC_replicate, holdsPermit]
  · simp [init, countPC_replicate, countedS2M]
  · simp [init, countPC_replicate, countedM2S]

theorem bi_inv_lizardStep (s t : State) (i : Nat) (h : Inv s) (hs : lizardStep s i = some t) :
    Inv t := by
  obtain ⟨f, b, sem, rn, ex, lz, cs⟩ := s
  obtain ⟨hg, hf, hb⟩ := h
  simp only [GateInv, permitsInUse, MAX_LIZARD_CROSSING] at hg
  simp only at hf hb
  unfold lizardStep at hs
  simp only at hs
  split at hs
  all_goals try contradiction
  all_goals
    rename_i heq
    obtain ⟨l1, l2, rfl, hlen, -⟩ := split_at_thread lz i _ heq
    have b1 := bi_counted_le_holds l1
    have b2 := bi_counted_le_holds l2
    simp only [countPC_append, countPC_cons, holdsPermit, countedS2M, countedM2S] at hg hf hb
    simp only [setPC, exitProcess, pileUpS2M, pileUpM2S, UNIDIRECTIONAL] at hs
  all_goals
    repeat' split at hs
  all_goals try contradiction
  all_goals
    simp only [Option.some.injEq] at hs
    subst hs
    simp only [Inv, GateInv, CountInv, permitsInUse, MAX_LIZARD_CROSSING,
      set_mid _ _ _ _ _ hlen, countPC_append, countPC_cons, holdsPermit, countedS2M,
      countedM2S, wrapInt] at *
  all_goals
    simp at * <;> omega

/-- A cat step changes nothing but the cat's program counter or the exit status. -/
theorem bi_catStep_shared (s t : State) (j : Nat) (hs : catStep s j = some t) :
    t.numCrossingSago2MonkeyGrass = s.numCrossingSago2MonkeyGrass ∧
    t.numCrossingMonkeyGrass2Sago = s.numCrossingMonkeyGrass2Sago ∧
    t.driveway_sem = s.driveway_sem ∧ t.lizards = s.lizards ∧ t.running = s.running := by
  unfold catStep at hs
  split at hs
  all_goals try contradiction
  all_goals
    repeat' split at hs
  all_goals
    simp only [Option.some.injEq] at hs
    subst hs
    simp [setCat, exitProcess]

theorem bi_inv_of_shared (s t : State) (h : Inv s)
    (hf : t.numCrossingSago2MonkeyGrass = s.numCrossingSago2MonkeyGrass)
    (hb : t.numCrossingMonkeyGrass2Sago = s.numCrossingMonkeyGrass2Sago)
    (hg : t.driveway_sem = s.driveway_sem) (hl : t.lizards = s.lizards) : Inv t := by
  unfold Inv GateInv CountInv permitsInUse at *
  rw [hf, hb, hg, hl]
  exact h

theorem bi_inv_step (s t : State) (a : Action) (h : Inv s) (hs : step s a = some t) :
    Inv t := by
  unfold step at hs
  split at hs
  · contradiction
  · cases a with
    | lizard i => exact bi_inv_lizardStep s t i h hs
    | cat j =>
        obtain ⟨h2, h3, h4, h5, -⟩ := bi_catStep_shared s t j hs
        exact bi_inv_of_shared s t h h2 h3 h4 h5
    | worldEnd =>
        simp only at hs
        split at hs
        · simp only [Option.some.injEq] at hs
          subst hs
          exact bi_inv_of_shared s _ h rfl rfl rfl rfl
        · contradiction

theorem bi_inv_run (schedule : List Action) (s t : State) (h : Inv s)
    (hs : run s schedule = some t) : Inv t := by
  induction schedule generalizing s with
  | nil =>
      simp only [run, Option.some.injEq] at hs
      subst hs
      exact h
  | cons a rest ih =>
      simp only [run] at hs
      split at hs
      · contradiction
      · rename_i u hu
        exact ih u (bi_inv_step s u a h hu) hs

theorem bi_inv_reachable (s : State) (h : Reachable s) : Inv s := by
  obtain ⟨n, m, schedule, hs⟩ := h
  exact bi_inv_run schedule _ s (bi_inv_init n m) hs

end Bi

/-! ## Claims about lizardsUni.cpp -/

namespace Uni

/-- In a state satisfying the invariant, a thread counted in a direction makes
that direction's counter positive. -/
theorem uni_counted_pos (p : LizardPC → Bool) (l : List LizardPC) (i : Nat) (pc : LizardPC)
    (h : l[i]? = some pc) (hp : p pc = true) : 0 < countPC p l := by
  obtain ⟨l1, l2, rfl, -, -⟩ := split_at_thread l i pc h
  simp [countPC_append, countPC_cons, hp]

/-- C1. Direction exclusivity: in every reachable state of lizardsUni.cpp the
two counters are never positive together, and therefore a lizard at either
pile-up check does not call `exit(-1)` but goes on to cross. -/
theorem C1_direction_exclusivity (s : State) (h : Reachable s) :
    ¬ (0 < s.numCrossingSago2MonkeyGrass ∧ 0 < s.numCrossingMonkeyGrass2Sago) ∧
    (∀ i, s.lizards[i]? = some .checkS2M → lizardStep s i = some (setPC s i .crossS2M)) ∧
    (∀ i, s.lizards[i]? = some .checkM2S → lizardStep s i = some (setPC s i .crossM2S)) := by
  obtain ⟨-, ⟨hf, hb⟩, hd⟩ := uni_inv_reachable s h
  have excl : ¬ (0 < s.numCrossingSago2MonkeyGrass ∧ 0 < s.numCrossingMonkeyGrass2Sago) := by
    unfold DirectionInv at hd
    split at hd <;> omega
  refine ⟨excl, ?_, ?_⟩
  · intro i hi
    have hpos := uni_counted_pos countedS2M s.lizards i _ hi rfl
    have hz : ¬ 0 < s.numCrossingMonkeyGrass2Sago := fun hc => excl ⟨by omega, hc⟩
    simp [lizardStep, hi, hz]
  · intro i hi
    have hpos := uni_counted_pos countedM2S s.lizards i _ hi rfl
    have hz : ¬ 0 < s.numCrossingSago2MonkeyGrass := fun hc => excl ⟨hc, by omega⟩
    simp [lizardStep, hi, hz]

/-- C1 at the reachable state `oneForward`: lizard 0 passes the pile-up check. -/
theorem C1_direction_exclusivity_witness :
    ¬ (0 < oneForward.numCrossingSago2MonkeyGrass ∧
        0 < oneForward.numCrossingMonkeyGrass2Sago) ∧
    lizardStep oneForward 0 = some (setPC oneForward 0 .crossS2M) :=
  have h := C1_direction_exclusivity oneForward ⟨2, 1, oneForwardSchedule, by decide⟩
  ⟨h.1, h.2.1 0 rfl⟩

/-- C4. Direction-state invariant: in every reachable state of lizardsUni.cpp,
`currentDirection` is `NONE` exactly when both counters are 0, and when it is
a direction that direction's counter is positive and the opposite one is 0. -/
theorem C4_direction_state_invariant (s : State) (h : Reachable s) :
    (s.currentDirection = .NONE ↔
      (s.numCrossingSago2MonkeyGrass = 0 ∧ s.numCrossingMonkeyGrass2Sago = 0)) ∧
    (s.currentDirection = .SAGO_TO_MONKEY_GRASS →
      0 < s.numCrossingSago2MonkeyGrass ∧ s.numCrossingMonkeyGrass2Sago = 0) ∧
    (s.currentDirection = .MONKEY_GRASS_TO_SAGO →
      0 < s.numCrossingMonkeyGrass2Sago ∧ s.numCrossingSago2MonkeyGrass = 0) := by
  obtain ⟨-, -, hd⟩ := uni_inv_reachable s h
  unfold DirectionInv at hd
  split at hd <;> rename_i hdir <;> simp only [hdir] <;> simp <;> omega

/-- C4 at the reachable state `oneForward`. -/
theorem C4_direction_state_invariant_witness :
    (oneForward.currentDirection = .NONE ↔
      (oneForward.numCrossingSago2MonkeyGrass = 0 ∧
        oneForward.numCrossingMonkeyGrass2Sago = 0)) ∧
    (0 < oneForward.numCrossingSago2MonkeyGrass ∧
      oneForward.numCrossingMonkeyGrass2Sago = 0) :=
  have h := C4_direction_state_invariant oneForward ⟨2, 1, oneForwardSchedule, by decide⟩
  ⟨h.1, h.2.1 rfl⟩

/-- One step either keeps the direction, resets it to `NONE`, or sets it from
`NONE`; this holds in every state, reachable or not. -/
theorem uni_step_direction (s t : State) (a : Action) (hs : step s a = some t) :
    t.currentDirection = s.currentDirection ∨ t.currentDirection = .NONE ∨
      s.currentDirection = .NONE := by
  unfold step at hs
  split at hs
  · contradiction
  · cases a with
    | lizard i =>
        simp only at hs
        unfold lizardStep at hs
        split at hs
        all_goals try contradiction
        all_goals
          simp only [setPC, claimS2M, claimM2S, completeS2M, completeM2S, exitProcess] at hs
        all_goals
          repeat' split at hs
        all_goals try contradiction
        all_goals
          simp only [Option.some.injEq] at hs
          subst hs
          simp_all
    | spurious i =>
        simp only at hs
        unfold spuriousStep at hs
        split at hs
        all_goals try contradiction
        all_goals
          simp only [setPC, Option.some.injEq] at hs
          subst hs
          simp
    | cat j => exact Or.inl (uni_catStep_shared s t j hs).1
    | worldEnd =>
        simp only at hs
        split at hs
        · simp only [Option.some.injEq] at hs
          subst hs
          simp
        · contradiction

/-- A run that starts with a direction set and ends with a different direction
passes through a state whose direction is `NONE`. -/
theorem uni_run_through_none (schedule : List Action) (s t : State)
    (hs : run s schedule = some t) (hset : s.currentDirection ≠ .NONE)
    (hne : t.currentDirection ≠ s.currentDirection) :
    ∃ before after mid, schedule = before ++ after ∧ run s before = some mid ∧
      run mid after = some t ∧ mid.currentDirection = .NONE := by
  induction schedule generalizing s with
  | nil =>
      simp only [run, Option.some.injEq] at hs
      subst hs
      exact absurd rfl hne
  | cons a rest ih =>
      simp only [run] at hs
      split at hs
      · contradiction
      · rename_i u hu
        by_cases hud : u.currentDirection = s.currentDirection
        · obtain ⟨before, after, mid, h1, h2, h3, h4⟩ :=
            ih u hs (by rw [hud]; exact hset) (by rw [hud]; exact hne)
          refine ⟨a :: before, after, mid, by simp [h1], ?_, h3, h4⟩
          simp only [run, hu]
          exact h2
        · have hnone : u.currentDirection = .NONE := by
            rcases uni_step_direction s u a hu with h | h | h
            · exact absurd h hud
            · exact h
            · exact absurd h hset
          refine ⟨[a], rest, u, rfl, ?_, hs, hnone⟩
          simp [run, hu]

/-- C5. Direction drain correctness: no step of lizardsUni.cpp turns
`SAGO_TO_MONKEY_GRASS` into `MONKEY_GRASS_TO_SAGO` or the reverse, and every run
from a reachable state with one direction to a state with the opposite
direction passes through a state with `currentDirection == NONE` and both
counters 0. -/
theorem C5_direction_drain (s t : State) (schedule : List Action) (h : Reachable s)
    (hs : run s schedule = some t) :
    (∀ a u, step s a = some u →
      ¬ (s.currentDirection = .SAGO_TO_MONKEY_GRASS ∧
          u.currentDirection = .MONKEY_GRASS_TO_SAGO) ∧
      ¬ (s.currentDirection = .MONKEY_GRASS_TO_SAGO ∧
          u.currentDirection = .SAGO_TO_MONKEY_GRASS)) ∧
    ((s.currentDirection = .SAGO_TO_MONKEY_GRASS ∧
        t.currentDirection = .MONKEY_GRASS_TO_SAGO) ∨
      (s.currentDirection = .MONKEY_GRASS_TO_SAGO ∧
        t.currentDirection = .SAGO_TO_MONKEY_GRASS) →
      ∃ before after mid, schedule = before ++ after ∧ run s before = some mid ∧
        run mid after = some t ∧ mid.currentDirection = .NONE ∧
        mid.numCrossingSago2MonkeyGrass = 0 ∧ mid.numCrossingMonkeyGrass2Sago = 0) := by
  constructor
  · intro a u hu
    rcases uni_step_direction s u a hu with h1 | h1 | h1 <;>
      constructor <;> rintro ⟨h2, h3⟩ <;> simp_all
  · intro hopp
    have hset : s.currentDirection ≠ .NONE := by
      rcases hopp with ⟨h1, -⟩ | ⟨h1, -⟩ <;> simp [h1]
    have hne : t.currentDirection ≠ s.currentDirection := by
      rcases hopp with ⟨h1, h2⟩ | ⟨h1, h2⟩ <;> simp [h1, h2]
    obtain ⟨before, after, mid, h1, h2, h3, h4⟩ := uni_run_through_none schedule s t hs hset hne
    have hinv := uni_inv_reachable mid (uni_reachable_run before s mid h h2)
    obtain ⟨-, -, hd⟩ := hinv
    unfold DirectionInv at hd
    rw [h4] at hd
    exact ⟨before, after, mid, h1, h2, h3, h4, hd.1, hd.2⟩

/-- C5 on the run from `oneForward` to `oneBackward`. -/
theorem C5_direction_drain_witness :
    ∃ before after mid, turnAroundSchedule = before ++ after ∧
      run oneForward before = some mid ∧ run mid after = some oneBackward ∧
      mid.currentDirection = .NONE ∧
      mid.numCrossingSago2MonkeyGrass = 0 ∧ mid.numCrossingMonkeyGrass2Sago = 0 :=
  (C5_direction_drain oneForward oneBackward turnAroundSchedule
    ⟨2, 1, oneForwardSchedule, by decide⟩ (by decide)).2 (Or.inl ⟨rfl, rfl⟩)

/-- After a thread is moved to a program counter, it is at that program counter. -/
theorem getElem?_set_self_of_some {α : Type} (l : List α) (i : Nat) (x y : α)
    (h : l[i]? = some x) : (l.set i y)[i]? = some y := by
  induction l generalizing i with
  | nil => simp at h
  | cons a l ih =>
      cases i with
      | zero => simp
      | succ i =>
          simp only [List.getElem?_cons_succ] at h
          simpa using ih i h

/-- C6. requestEntry postcondition: a lizard of lizardsUni.cpp evaluating the
wait predicate for direction D (counters being `int` values below `INT_MAX`)
enters exactly when `currentDirection == NONE` or (`currentDirection == D` and
the opposite count is 0); entering sets the direction to D if it was `NONE` and
keeps it otherwise, adds exactly 1 to the count of D and changes nothing else
but the program counter; when the predicate is false the lizard falls asleep on
the condition variable, cannot step, and the shared state is unchanged. -/
theorem C6_request_entry (s : State) (i : Nat)
    (hf : -2147483648 ≤ s.numCrossingSago2MonkeyGrass ∧ s.numCrossingSago2MonkeyGrass < 2147483647)
    (hb : -2147483648 ≤ s.numCrossingMonkeyGrass2Sago ∧ s.numCrossingMonkeyGrass2Sago < 2147483647) :
    (s.lizards[i]? = some .waitS2M →
      (predS2M s = true ↔
        (s.currentDirection = .NONE ∨
          (s.currentDirection = .SAGO_TO_MONKEY_GRASS ∧ s.numCrossingMonkeyGrass2Sago = 0))) ∧
      (predS2M s = true →
        lizardStep s i = some
          { s with
            currentDirection :=
              if s.currentDirection = .NONE then .SAGO_TO_MONKEY_GRASS else s.currentDirection
            numCrossingSago2MonkeyGrass := s.numCrossingSago2MonkeyGrass + 1
            lizards := s.lizards.set i .checkS2M }) ∧
      (predS2M s = false →
        lizardStep s i = some { s with lizards := s.lizards.set i .asleepS2M } ∧
        lizardStep { s with lizards := s.lizards.set i .asleepS2M } i = none)) ∧
    (s.lizards[i]? = some .waitM2S →
      (predM2S s = true ↔
        (s.currentDirection = .NONE ∨
          (s.currentDirection = .MONKEY_GRASS_TO_SAGO ∧ s.numCrossingSago2MonkeyGrass = 0))) ∧
      (predM2S s = true →
        lizardStep s i = some
          { s with
            currentDirection :=
              if s.currentDirection = .NONE then .MONKEY_GRASS_TO_SAGO else s.currentDirection
            numCrossingMonkeyGrass2Sago := s.numCrossingMonkeyGrass2Sago + 1
            lizards := s.lizards.set i .checkM2S }) ∧
      (predM2S s = false →
        lizardStep s i = some { s with lizards := s.lizards.set i .asleepM2S } ∧
        lizardStep { s with lizards := s.lizards.set i .asleepM2S } i = none)) := by
  have wf := wrapInt_eq (s.numCrossingSago2MonkeyGrass + 1) (by omega) (by omega)
  have wb := wrapInt_eq (s.numCrossingMonkeyGrass2Sago + 1) (by omega) (by omega)
  refine ⟨fun hi => ⟨?_, ?_, ?_⟩, fun hi => ⟨?_, ?_, ?_⟩⟩
  · simp only [predS2M, Bool.or_eq_true, Bool.and_eq_true, beq_iff_eq]
    tauto
  · intro hp
    simp [lizardStep, hi, hp, setPC, claimS2M, wf]
  · intro hp
    have hset := getElem?_set_self_of_some s.lizards i _ .asleepS2M hi
    constructor
    · simp [lizardStep, hi, hp, setPC]
    · simp [lizardStep, hset]
  · simp only [predM2S, Bool.or_eq_true, Bool.and_eq_true, beq_iff_eq]
    tauto
  · intro hp
    simp [lizardStep, hi, hp, setPC, claimM2S, wb]
  · intro hp
    have hset := getElem?_set_self_of_some s.lizards i _ .asleepM2S hi
    constructor
    · simp [lizardStep, hi, hp, setPC]
    · simp [lizardStep, hset]

/-- C6 at `atEntry`: lizard 0 enters and the state becomes `oneForward`. -/
theorem C6_request_entry_witness : lizardStep atEntry 0 = some oneForward :=
  ((C6_request_entry atEntry 0 (by decide) (by decide)).1 rfl).2.1 rfl

/-- C7. completeTraversal postcondition: the completion section of a lizard of
lizardsUni.cpp crossing in direction D (the counter being an `int` above
`INT_MIN`) subtracts exactly 1 from the count of D and leaves the opposite
count, the semaphore and the flags alone; when the new count is 0 it sets
`currentDirection = NONE` and `notify_all` moves every lizard asleep on the
condition variable back to its predicate; when the new count is not 0 the
direction and every other lizard are unchanged. -/
theorem C7_complete_traversal (s : State) (i : Nat)
    (hf : -2147483648 < s.numCrossingSago2MonkeyGrass ∧ s.numCrossingSago2MonkeyGrass ≤ 2147483647)
    (hb : -2147483648 < s.numCrossingMonkeyGrass2Sago ∧ s.numCrossingMonkeyGrass2Sago ≤ 2147483647) :
    (s.lizards[i]? = some .crossS2M →
      (s.numCrossingSago2MonkeyGrass - 1 = 0 →
        lizardStep s i = some
          { s with
            numCrossingSago2MonkeyGrass := s.numCrossingSago2MonkeyGrass - 1
            currentDirection := .NONE
            lizards := (notify_all s.lizards).set i .postS2M }) ∧
      (s.numCrossingSago2MonkeyGrass - 1 ≠ 0 →
        lizardStep s i = some
          { s with
            numCrossingSago2MonkeyGrass := s.numCrossingSago2MonkeyGrass - 1
            lizards := s.lizards.set i .postS2M })) ∧
    (s.lizards[i]? = some .crossM2S →
      (s.numCrossingMonkeyGrass2Sago - 1 = 0 →
        lizardStep s i = some
          { s with
            numCrossingMonkeyGrass2Sago := s.numCrossingMonkeyGrass2Sago - 1
            currentDirection := .NONE
            lizards := (notify_all s.lizards).set i .postM2S }) ∧
      (s.numCrossingMonkeyGrass2Sago - 1 ≠ 0 →
        lizardStep s i = some
          { s with
            numCrossingMonkeyGrass2Sago := s.numCrossingMonkeyGrass2Sago - 1
            lizards := s.lizards.set i .postM2S })) ∧
    (∀ k : Nat,
      (s.lizards[k]? = some LizardPC.asleepS2M →
        (notify_all s.lizards)[k]? = some LizardPC.waitS2M) ∧
      (s.lizards[k]? = some LizardPC.asleepM2S →
        (notify_all s.lizards)[k]? = some LizardPC.waitM2S)) := by
  have wf := wrapInt_eq (s.numCrossingSago2MonkeyGrass - 1) (by omega) (by omega)
  have wb := wrapInt_eq (s.numCrossingMonkeyGrass2Sago - 1) (by omega) (by omega)
  refine ⟨fun hi => ⟨fun h0 => ?_, fun h0 => ?_⟩, fun hi => ⟨fun h0 => ?_, fun h0 => ?_⟩,
    fun k => ⟨fun hk => ?_, fun hk => ?_⟩⟩
  · simp only [lizardStep, hi, completeS2M, setPC, wf]
    simp [h0]
  · simp only [lizardStep, hi, completeS2M, setPC, wf]
    simp [h0]
  · simp only [lizardStep, hi, completeM2S, setPC, wb]
    simp [h0]
  · simp only [lizardStep, hi, completeM2S, setPC, wb]
    simp [h0]
  · simp [notify_all, List.getElem?_map, hk, wake]
  · simp [notify_all, List.getElem?_map, hk, wake]

/-- C7 at `crossingForward`: the last forward lizard resets the direction. -/
theorem C7_complete_traversal_witness :
    lizardStep crossingForward 0 = some crossedForward :=
  ((C7_complete_traversal crossingForward 0 (by decide) (by decide)).1 rfl).1 rfl

end Uni

/-! ## Permits held by each lizard -/

namespace Uni

theorem uni_gate_step (s t : State) (a : Action) (i : Nat) (hs : step s a = some t) :
    holdsNow t i = holdsNow s i + gateDelta s a i := by
  unfold step at hs
  split at hs
  · contradiction
  · cases a with
    | lizard j =>
        simp only at hs
        by_cases hji : j = i
        · subst hji
          unfold lizardStep at hs
          split at hs
          all_goals try contradiction
          all_goals
            rename_i heq
            have hlt : j < s.lizards.length := by
              obtain ⟨h, -⟩ := List.getElem?_eq_some.mp heq
              exact h
            simp only [setPC, claimS2M, claimM2S, completeS2M, completeM2S, exitProcess] at hs
          all_goals
            repeat' split at hs
          all_goals try contradiction
          all_goals
            simp only [Option.some.injEq] at hs
            subst hs
            simp [holdsNow, gateDelta, heq, List.getElem?_set, hlt, notify_all, holdsPermit]
        · unfold lizardStep at hs
          split at hs
          all_goals try contradiction
          all_goals
            simp only [setPC, claimS2M, claimM2S, completeS2M, completeM2S, exitProcess] at hs
          all_goals
            repeat' split at hs
          all_goals try contradiction
          all_goals
            simp only [Option.some.injEq] at hs
            subst hs
            simp only [holdsNow, gateDelta, if_neg hji, notify_all, List.getElem?_set_ne hji,
              List.getElem?_map, add_zero]
          all_goals
            cases s.lizards[i]? with
            | none => rfl
            | some pc => cases pc <;> rfl
    | spurious j =>
        simp only at hs
        unfold spuriousStep at hs
        split at hs
        all_goals try contradiction
        all_goals
          rename_i heq
          simp only [setPC, Option.some.injEq] at hs
          subst hs
          by_cases hji : j = i
          · subst hji
            have hlt : j < s.lizards.length := by
              obtain ⟨h, -⟩ := List.getElem?_eq_some.mp heq
              exact h
            simp [holdsNow, gateDelta, heq, List.getElem?_set, hlt, holdsPermit]
          · simp [holdsNow, gateDelta, List.getElem?_set_ne hji]
    | cat j =>
        obtain ⟨-, -, -, -, hl, -⟩ := uni_catStep_shared s t j hs
        simp [holdsNow, gateDelta, hl]
    | worldEnd =>
        simp only at hs
        split at hs
        · simp only [Option.some.injEq] at hs
          subst hs
          simp [holdsNow, gateDelta]
        · contradiction

theorem uni_gate_run (schedule : List Action) (s t : State) (i : Nat)
    (hs : run s schedule = some t) :
    holdsNow t i = holdsNow s i + gateBalance i s schedule := by
  induction schedule generalizing s with
  | nil =>
      simp only [run, Option.some.injEq] at hs
      subst hs
      simp [gateBalance]
  | cons a rest ih =>
      simp only [run] at hs
      split at hs
      · contradiction
      · rename_i u hu
        have h1 := uni_gate_step s u a i hu
        have h2 := ih u hs
        simp only [gateBalance, hu]
        omega

end Uni

namespace Bi

theorem bi_gate_step (s t : State) (a : Action) (i : Nat) (hs : step s a = some t) :
    holdsNow t i = holdsNow s i + gateDelta s a i := by
  unfold step at hs
  split at hs
  · contradiction
  · cases a with
    | lizard j =>
        simp only at hs
        by_cases hji : j = i
        · subst hji
          unfold lizardStep at hs
          split at hs
          all_goals try contradiction
          all_goals
            rename_i heq
            have hlt : j < s.lizards.length := by
              obtain ⟨h, -⟩ := List.getElem?_eq_some.mp heq
              exact h
            simp only [setPC, exitProcess] at hs
          all_goals
            repeat' split at hs
          all_goals try contradiction
          all_goals
            simp only [Option.some.injEq] at hs
            subst hs
            simp [holdsNow, gateDelta, heq, List.getElem?_set, hlt, holdsPermit]
        · unfold lizardStep at hs
          split at hs
          all_goals try contradiction
          all_goals
            simp only [setPC, exitProcess] at hs
          all_goals
            repeat' split at hs
          all_goals try contradiction
          all_goals
            simp only [Option.some.injEq] at hs
            subst hs
            simp only [holdsNow, gateDelta, if_neg hji, List.getElem?_set_ne hji, add_zero]
    | cat j =>
        obtain ⟨-, -, -, hl, -⟩ := bi_catStep_shared s t j hs
        simp [holdsNow, gateDelta, hl]
    | worldEnd =>
        simp only at hs
        split at hs
        · simp only [Option.some.injEq] at hs
          subst hs
          simp [holdsNow, gateDelta]
        · contradiction

theorem bi_gate_run (schedule : List Action) (s t : State) (i : Nat)
    (hs : run s schedule = some t) :
    holdsNow t i = holdsNow s i + gateBalance i s schedule := by
  induction schedule generalizing s with
  | nil =>
      simp only [run, Option.some.injEq] at hs
      subst hs
      simp [gateBalance]
  | cons a rest ih =>
      simp only [run] at hs
      split at hs
      · contradiction
      · rename_i u hu
        have h1 := bi_gate_step s u a i hu
        have h2 := ih u hs
        simp only [gateBalance, hu]
        omega

end Bi

/-! ## Claims about both programs -/

theorem uni_holdsNow_range (s : Uni.State) (i : Nat) :
    0 ≤ Uni.holdsNow s i ∧ Uni.holdsNow s i ≤ 1 := by
  unfold Uni.holdsNow
  split
  · split <;> omega
  · omega

theorem bi_holdsNow_range (s : Bi.State) (i : Nat) :
    0 ≤ Bi.holdsNow s i ∧ Bi.holdsNow s i ≤ 1 := by
  unfold Bi.holdsNow
  split
  · split <;> omega
  · omega

theorem uni_holdsNow_init (n m i : Nat) : Uni.holdsNow (Uni.init n m) i = 0 := by
  simp only [Uni.holdsNow, Uni.init, List.getElem?_replicate]
  by_cases h : i < n <;> simp [h, Uni.holdsPermit]

theorem bi_holdsNow_init (n m i : Nat) : Bi.holdsNow (Bi.init n m) i = 0 := by
  simp only [Bi.holdsNow, Bi.init, List.getElem?_replicate]
  by_cases h : i < n <;> simp [h, Bi.holdsPermit]

/-- C2. Capacity invariant: in both programs every state reached from the
initial state has `0 <= driveway_sem <= MAX_LIZARD_CROSSING` and `driveway_sem`
plus the number of lizards between a `sem_wait` and its `sem_post` equal to
`MAX_LIZARD_CROSSING`, so the permits in use never exceed it; and for every
lizard the `sem_wait` calls it has executed minus its `sem_post` calls is 0 or 1
(1 exactly when it is between a `sem_wait` and its `sem_post`), so no lizard
holds two permits and no `sem_post` comes without an earlier matching
`sem_wait` of the same lizard. -/
theorem C2_capacity_invariant (n m : Nat) (schedule : List Uni.Action) (s : Uni.State)
    (hs : Uni.run (Uni.init n m) schedule = some s)
    (n2 m2 : Nat) (schedule2 : List Bi.Action) (b : Bi.State)
    (hb : Bi.run (Bi.init n2 m2) schedule2 = some b) (i : Nat) :
    (0 ≤ s.driveway_sem ∧ s.driveway_sem ≤ MAX_LIZARD_CROSSING ∧
      s.driveway_sem + Uni.permitsInUse s = MAX_LIZARD_CROSSING ∧
      Uni.permitsInUse s ≤ MAX_LIZARD_CROSSING ∧
      Uni.gateBalance i (Uni.init n m) schedule = Uni.holdsNow s i ∧
      0 ≤ Uni.gateBalance i (Uni.init n m) schedule ∧
      Uni.gateBalance i (Uni.init n m) schedule ≤ 1) ∧
    (0 ≤ b.driveway_sem ∧ b.driveway_sem ≤ MAX_LIZARD_CROSSING ∧
      b.driveway_sem + Bi.permitsInUse b = MAX_LIZARD_CROSSING ∧
      Bi.permitsInUse b ≤ MAX_LIZARD_CROSSING ∧
      Bi.gateBalance i (Bi.init n2 m2) schedule2 = Bi.holdsNow b i ∧
      0 ≤ Bi.gateBalance i (Bi.init n2 m2) schedule2 ∧
      Bi.gateBalance i (Bi.init n2 m2) schedule2 ≤ 1) := by
  have hu := (Uni.uni_inv_reachable s ⟨n, m, schedule, hs⟩).1
  have hbi := (Bi.bi_inv_reachable b ⟨n2, m2, schedule2, hb⟩).1
  unfold Uni.GateInv at hu
  unfold Bi.GateInv at hbi
  have g1 := Uni.uni_gate_run schedule _ s i hs
  have g2 := Bi.bi_gate_run schedule2 _ b i hb
  rw [uni_holdsNow_init] at g1
  rw [bi_holdsNow_init] at g2
  have r1 := uni_holdsNow_range s i
  have r2 := bi_holdsNow_range b i
  refine ⟨⟨?_, ?_, hu, ?_, ?_, ?_, ?_⟩, ⟨?_, ?_, hbi, ?_, ?_, ?_, ?_⟩⟩ <;> omega


/-! ## Values read by the cats -/

namespace Uni

/-- In a state satisfying the invariant both counters are between 0 and
`MAX_LIZARD_CROSSING`, and their sum is at most the permits in use. -/
theorem uni_occupancy_bounded (s : State) (h : Inv s) :
    0 ≤ s.numCrossingSago2MonkeyGrass ∧ 0 ≤ s.numCrossingMonkeyGrass2Sago ∧
    s.numCrossingSago2MonkeyGrass + s.numCrossingMonkeyGrass2Sago ≤ (permitsInUse s : Int) ∧
    permitsInUse s ≤ MAX_LIZARD_CROSSING := by
  obtain ⟨hg, ⟨hf, hb⟩, -⟩ := h
  have hle := uni_counted_le_holds s.lizards
  unfold GateInv at hg
  unfold permitsInUse at *
  omega

theorem uni_lizardStep_cats (s t : State) (i : Nat) (hs : lizardStep s i = some t) :
    t.cats = s.cats := by
  unfold lizardStep at hs
  split at hs
  all_goals try contradiction
  all_goals
    simp only [setPC, claimS2M, claimM2S, completeS2M, completeM2S, exitProcess] at hs
  all_goals
    repeat' split at hs
  all_goals try contradiction
  all_goals
    simp only [Option.some.injEq] at hs
    subst hs
    rfl

theorem uni_spuriousStep_cats (s t : State) (i : Nat) (hs : spuriousStep s i = some t) :
    t.cats = s.cats := by
  unfold spuriousStep at hs
  split at hs
  all_goals try contradiction
  all_goals
    simp only [setPC, Option.some.injEq] at hs
    subst hs
    rfl

theorem uni_catInv_step (s t : State) (a : Action) (h : Inv s) (hc : CatInv s)
    (hs : step s a = some t) : CatInv t := by
  have hr := uni_occupancy_bounded s h
  unfold step at hs
  split at hs
  · contradiction
  · cases a with
    | lizard i =>
        have e := uni_lizardStep_cats s t i hs
        unfold CatInv
        rw [e]
        exact hc
    | spurious i =>
        have e := uni_spuriousStep_cats s t i hs
        unfold CatInv
        rw [e]
        exact hc
    | cat j =>
        simp only at hs
        unfold catStep at hs
        split at hs
        all_goals try contradiction
        all_goals
          repeat' split at hs
        all_goals
          simp only [Option.some.injEq] at hs
          subst hs
          intro k first hk
          simp only [setCat, exitProcess, List.getElem?_set] at hk
          first
            | exact hc k first hk
            | (split at hk
               · split at hk
                 · simp only [Option.some.injEq, CatPC.readM2S.injEq] at hk
                   first
                     | (subst hk; omega)
                     | exact absurd hk (by simp)
                 · contradiction
               · exact hc k first hk)
    | worldEnd =>
        simp only at hs
        split at hs
        · simp only [Option.some.injEq] at hs
          subst hs
          exact hc
        · contradiction

theorem uni_catInv_run (schedule : List Action) (s t : State) (h : Inv s) (hc : CatInv s)
    (hs : run s schedule = some t) : CatInv t := by
  induction schedule generalizing s with
  | nil =>
      simp only [run, Option.some.injEq] at hs
      subst hs
      exact hc
  | cons a rest ih =>
      simp only [run] at hs
      split at hs
      · contradiction
      · rename_i u hu
        exact ih u (uni_inv_step s u a h hu) (uni_catInv_step s u a h hc hu) hs

theorem uni_catInv_reachable (s : State) (h : Reachable s) : CatInv s := by
  obtain ⟨n, m, schedule, hs⟩ := h
  refine uni_catInv_run schedule _ s (uni_inv_init n m) ?_ hs
  intro j first hj
  simp only [init, List.getElem?_replicate] at hj
  split at hj <;> simp at hj

end Uni

namespace Bi

/-- In a state satisfying the invariant both counters are between 0 and
`MAX_LIZARD_CROSSING`, and their sum is at most the permits in use. -/
theorem bi_occupancy_bounded (s : State) (h : Inv s) :
    0 ≤ s.numCrossingSago2MonkeyGrass ∧ 0 ≤ s.numCrossingMonkeyGrass2Sago ∧
    s.numCrossingSago2MonkeyGrass + s.numCrossingMonkeyGrass2Sago ≤ (permitsInUse s : Int) ∧
    permitsInUse s ≤ MAX_LIZARD_CROSSING := by
  obtain ⟨hg, hf, hb⟩ := h
  have hle := bi_counted_le_holds s.lizards
  unfold GateInv at hg
  unfold permitsInUse at *
  omega

theorem bi_lizardStep_cats (s t : State) (i : Nat) (hs : lizardStep s i = some t) :
    t.cats = s.cats := by
  unfold lizardStep at hs
  split at hs
  all_goals try contradiction
  all_goals
    simp only [setPC, exitProcess] at hs
  all_goals
    repeat' split at hs
  all_goals try contradiction
  all_goals
    simp only [Option.some.injEq] at hs
    subst hs
    rfl

theorem bi_catInv_step (s t : State) (a : Action) (h : Inv s) (hc : CatInv s)
    (hs : step s a = some t) : CatInv t := by
  have hr := bi_occupancy_bounded s h
  unfold step at hs
  split at hs
  · contradiction
  · cases a with
    | lizard i =>
        have e := bi_lizardStep_cats s t i hs
        unfold CatInv
        rw [e]
        exact hc
    | cat j =>
        simp only at hs
        unfold catStep at hs
        split at hs
        all_goals try contradiction
        all_goals
          repeat' split at hs
        all_goals
          simp only [Option.some.injEq] at hs
          subst hs
          intro k first hk
          simp only [setCat, exitProcess, List.getElem?_set] at hk
          first
            | exact hc k first hk
            | (split at hk
               · split at hk
                 · simp only [Option.some.injEq, CatPC.readM2S.injEq] at hk
                   first
                     | (subst hk; omega)
                     | exact absurd hk (by simp)
                 · contradiction
               · exact hc k first hk)
    | worldEnd =>
        simp only at hs
        split at hs
        · simp only [Option.some.injEq] at hs
          subst hs
          exact hc
        · contradiction

theorem bi_catInv_run (schedule : List Action) (s t : State) (h : Inv s) (hc : CatInv s)
    (hs : run s schedule = some t) : CatInv t := by
  induction schedule generalizing s with
  | nil =>
      simp only [run, Option.some.injEq] at hs
      subst hs
      exact hc
  | cons a rest ih =>
      simp only [run] at hs
      split at hs
      · contradiction
      · rename_i u hu
        exact ih u (bi_inv_step s u a h hu) (bi_catInv_step s u a h hc hu) hs

theorem bi_catInv_reachable (s : State) (h : Reachable s) : CatInv s := by
  obtain ⟨n, m, schedule, hs⟩ := h
  refine bi_catInv_run schedule _ s (bi_inv_init n m) ?_ hs
  intro j first hj
  simp only [init, List.getElem?_replicate] at hj
  split at hj <;> simp at hj

end Bi

/-- The cat's comparison on two values whose sum fits an `int`. -/
theorem catCheck_iff (first second : Int) (h1 : -2147483648 ≤ first + second)
    (h2 : first + second ≤ 2147483647) :
    catCheck first second = true ↔ (MAX_LIZARD_CROSSING : Int) < first + second := by
  unfold catCheck
  rw [wrapInt_eq _ h1 h2]
  simp

/-- C8. Watcher threshold: in both programs, when a running process is in a
reachable state and a cat holding the first counter value it read takes its
next step (reading the second counter and comparing), the process exits with
status -1 exactly when the sum of the two values read is strictly greater than
`MAX_LIZARD_CROSSING`, keeps running exactly when the sum is at most
`MAX_LIZARD_CROSSING`, and the step changes neither counter, nor
`currentDirection`, nor the semaphore, nor any lizard. -/
theorem C8_watcher_threshold (s : Uni.State) (hs : Uni.Reachable s)
    (hrun : s.exitStatus = none) (j : Nat) (first : Int)
    (hj : s.cats[j]? = some (CatPC.readM2S first))
    (b : Bi.State) (hb : Bi.Reachable b) (hrun2 : b.exitStatus = none) (k : Nat)
    (first2 : Int) (hk : b.cats[k]? = some (CatPC.readM2S first2)) :
    (∃ t, Uni.step s (.cat j) = some t ∧
      (t.exitStatus = some (-1) ↔
        (MAX_LIZARD_CROSSING : Int) < first + s.numCrossingMonkeyGrass2Sago) ∧
      (t.exitStatus = none ↔
        first + s.numCrossingMonkeyGrass2Sago ≤ (MAX_LIZARD_CROSSING : Int)) ∧
      t.numCrossingSago2MonkeyGrass = s.numCrossingSago2MonkeyGrass ∧
      t.numCrossingMonkeyGrass2Sago = s.numCrossingMonkeyGrass2Sago ∧
      t.currentDirection = s.currentDirection ∧ t.driveway_sem = s.driveway_sem ∧
      t.lizards = s.lizards) ∧
    (∃ t, Bi.step b (.cat k) = some t ∧
      (t.exitStatus = some (-1) ↔
        (MAX_LIZARD_CROSSING : Int) < first2 + b.numCrossingMonkeyGrass2Sago) ∧
      (t.exitStatus = none ↔
        first2 + b.numCrossingMonkeyGrass2Sago ≤ (MAX_LIZARD_CROSSING : Int)) ∧
      t.numCrossingSago2MonkeyGrass = b.numCrossingSago2MonkeyGrass ∧
      t.numCrossingMonkeyGrass2Sago = b.numCrossingMonkeyGrass2Sago ∧
      t.driveway_sem = b.driveway_sem ∧ t.lizards = b.lizards) := by
  constructor
  · have hr := Uni.uni_occupancy_bounded s (Uni.uni_inv_reachable s hs)
    have hc := Uni.uni_catInv_reachable s hs j first hj
    have hM : (MAX_LIZARD_CROSSING : Int) = 4 := rfl
    have hM2 : MAX_LIZARD_CROSSING = 4 := rfl
    have hiff := catCheck_iff first s.numCrossingMonkeyGrass2Sago (by omega) (by omega)
    by_cases hgt : (MAX_LIZARD_CROSSING : Int) < first + s.numCrossingMonkeyGrass2Sago
    · refine ⟨Uni.exitProcess s, ?_, ?_⟩
      · simp [Uni.step, hrun, Uni.catStep, hj, hiff.mpr hgt]
      · refine ⟨?_, ?_, rfl, rfl, rfl, rfl, rfl⟩
        · simp [Uni.exitProcess, hgt]
        · simp only [Uni.exitProcess, reduceCtorEq, false_iff]
          omega
    · have hcheck : catCheck first s.numCrossingMonkeyGrass2Sago = false := by
        cases h : catCheck first s.numCrossingMonkeyGrass2Sago
        · rfl
        · exact absurd (hiff.mp h) hgt
      refine ⟨Uni.setCat s j .loopTop, ?_, ?_⟩
      · simp [Uni.step, hrun, Uni.catStep, hj, hcheck]
      · refine ⟨?_, ?_, rfl, rfl, rfl, rfl, rfl⟩
        · simp only [Uni.setCat, hrun, reduceCtorEq, false_iff]
          exact hgt
        · simp only [Uni.setCat, hrun, true_iff]
          omega
  · have hr := Bi.bi_occupancy_bounded b (Bi.bi_inv_reachable b hb)
    have hc := Bi.bi_catInv_reachable b hb k first2 hk
    have hM : (MAX_LIZARD_CROSSING : Int) = 4 := rfl
    have hM2 : MAX_LIZARD_CROSSING = 4 := rfl
    have hiff := catCheck_iff first2 b.numCrossingMonkeyGrass2Sago (by omega) (by omega)
    by_cases hgt : (MAX_LIZARD_CROSSING : Int) < first2 + b.numCrossingMonkeyGrass2Sago
    · refine ⟨Bi.exitProcess b, ?_, ?_⟩
      · simp [Bi.step, hrun2, Bi.catStep, hk, hiff.mpr hgt]
      · refine ⟨?_, ?_, rfl, rfl, rfl, rfl⟩
        · simp [Bi.exitProcess, hgt]
        · simp only [Bi.exitProcess, reduceCtorEq, false_iff]
          omega
    · have hcheck : catCheck first2 b.numCrossingMonkeyGrass2Sago = false := by
        cases h : catCheck first2 b.numCrossingMonkeyGrass2Sago
        · rfl
        · exact absurd (hiff.mp h) hgt
      refine ⟨Bi.setCat b k .loopTop, ?_, ?_⟩
      · simp [Bi.step, hrun2, Bi.catStep, hk, hcheck]
      · refine ⟨?_, ?_, rfl, rfl, rfl, rfl⟩
        · simp only [Bi.setCat, hrun2, reduceCtorEq, false_iff]
          exact hgt
        · simp only [Bi.setCat, hrun2, true_iff]
          omega

/-- C10. Bidirectional coexistence: in lizards.cpp with at least two lizards a
state with both counters positive (and their sum at most `MAX_LIZARD_CROSSING`)
is reachable, and in every state whatsoever the both-directions tests of
`crossSago2MonkeyGrass` and `crossMonkeyGrass2Sago` are false, so a lizard at
either test goes on to cross and does not call `exit(-1)`. -/
theorem C10_bidirectional_coexistence (n m : Nat) (hn : 2 ≤ n) (s : Bi.State) (i : Nat) :
    (∃ t, Bi.run (Bi.init n m) Bi.coexistSchedule = some t ∧
      0 < t.numCrossingSago2MonkeyGrass ∧ 0 < t.numCrossingMonkeyGrass2Sago ∧
      t.numCrossingSago2MonkeyGrass + t.numCrossingMonkeyGrass2Sago
        ≤ (MAX_LIZARD_CROSSING : Int)) ∧
    Bi.pileUpS2M s = false ∧ Bi.pileUpM2S s = false ∧
    (s.lizards[i]? = some .checkS2M → Bi.lizardStep s i = some (Bi.setPC s i .crossS2M)) ∧
    (s.lizards[i]? = some .checkM2S → Bi.lizardStep s i = some (Bi.setPC s i .crossM2S)) := by
  have p1 : Bi.pileUpS2M s = false := by simp [Bi.pileUpS2M, Bi.UNIDIRECTIONAL]
  have p2 : Bi.pileUpM2S s = false := by simp [Bi.pileUpM2S, Bi.UNIDIRECTIONAL]
  refine ⟨?_, p1, p2, ?_, ?_⟩
  · obtain ⟨k, rfl⟩ : ∃ k, n = k + 2 := ⟨n - 2, by omega⟩
    refine ⟨{ numCrossingSago2MonkeyGrass := 1
              numCrossingMonkeyGrass2Sago := 1
              driveway_sem := 2
              running := true
              exitStatus := none
              lizards := .checkM2S :: .checkS2M :: List.replicate k .loopTop
              cats := List.replicate m .loopTop }, ?_, ?_, ?_, ?_⟩
    · simp [Bi.coexistSchedule, Bi.run, Bi.step, Bi.lizardStep, Bi.init, Bi.setPC,
        List.replicate_succ, MAX_LIZARD_CROSSING, wrapInt, Bi.pileUpS2M, Bi.pileUpM2S,
        Bi.UNIDIRECTIONAL]
    · show (0 : Int) < 1
      decide
    · show (0 : Int) < 1
      decide
    · show (1 : Int) + 1 ≤ (MAX_LIZARD_CROSSING : Int)
      decide
  · intro hi
    simp [Bi.lizardStep, hi, p1]
  · intro hi
    simp [Bi.lizardStep, hi, p2]

/-- C10 with two lizards and one cat. -/
theorem C10_bidirectional_coexistence_witness :
    ∃ t, Bi.run (Bi.init 2 1) Bi.coexistSchedule = some t ∧
      0 < t.numCrossingSago2MonkeyGrass ∧ 0 < t.numCrossingMonkeyGrass2Sago ∧
      t.numCrossingSago2MonkeyGrass + t.numCrossingMonkeyGrass2Sago
        ≤ (MAX_LIZARD_CROSSING : Int) :=
  (C10_bidirectional_coexistence 2 1 (by decide) Bi.oneForward 0).1

/-- C2 at the states reached by `oneForwardSchedule` in both programs. -/
theorem C2_capacity_invariant_witness :
    Uni.oneForward.driveway_sem + Uni.permitsInUse Uni.oneForward = MAX_LIZARD_CROSSING ∧
    Uni.gateBalance 0 (Uni.init 2 1) Uni.oneForwardSchedule = Uni.holdsNow Uni.oneForward 0 ∧
    Bi.oneForward.driveway_sem + Bi.permitsInUse Bi.oneForward = MAX_LIZARD_CROSSING ∧
    Bi.gateBalance 0 (Bi.init 2 1) Bi.oneForwardSchedule = Bi.holdsNow Bi.oneForward 0 :=
  have h := C2_capacity_invariant 2 1 Uni.oneForwardSchedule Uni.oneForward (by decide)
    2 1 Bi.oneForwardSchedule Bi.oneForward (by decide) 0
  ⟨h.1.2.2.1, h.1.2.2.2.2.1, h.2.2.2.1, h.2.2.2.2.2.1⟩

/-- C8 at the states `catReading` of both programs. -/
theorem C8_watcher_threshold_witness :
    (∃ t, Uni.step Uni.catReading (.cat 0) = some t ∧
      (t.exitStatus = some (-1) ↔
        (MAX_LIZARD_CROSSING : Int) < 0 + Uni.catReading.numCrossingMonkeyGrass2Sago) ∧
      (t.exitStatus = none ↔
        0 + Uni.catReading.numCrossingMonkeyGrass2Sago ≤ (MAX_LIZARD_CROSSING : Int)) ∧
      t.numCrossingSago2MonkeyGrass = Uni.catReading.numCrossingSago2MonkeyGrass ∧
      t.numCrossingMonkeyGrass2Sago = Uni.catReading.numCrossingMonkeyGrass2Sago ∧
      t.currentDirection = Uni.catReading.currentDirection ∧
      t.driveway_sem = Uni.catReading.driveway_sem ∧
      t.lizards = Uni.catReading.lizards) :=
  (C8_watcher_threshold Uni.catReading ⟨2, 1, Uni.catReadsSchedule, by decide⟩ rfl 0 0 rfl
    Bi.catReading ⟨2, 1, Bi.catReadsSchedule, by decide⟩ rfl 0 0 rfl).1

/-- C3. The cat's sum is two unlocked loads.  With five lizards and one cat,
in both programs the schedule `tornReadSchedule` keeps the sum of the two
counters at most `MAX_LIZARD_CROSSING` in the final state, yet the cat, having
loaded 4 for the first counter and later 1 for the second, computes 5 and
calls `exit(-1)`. -/
theorem C3_cat_torn_read :
    (∃ t, Uni.run (Uni.init 5 1) Uni.tornReadSchedule = some t ∧
      t.exitStatus = some (-1) ∧
      t.numCrossingSago2MonkeyGrass + t.numCrossingMonkeyGrass2Sago
        ≤ (MAX_LIZARD_CROSSING : Int)) ∧
    (∃ t, Bi.run (Bi.init 5 1) Bi.tornReadSchedule = some t ∧
      t.exitStatus = some (-1) ∧
      t.numCrossingSago2MonkeyGrass + t.numCrossingMonkeyGrass2Sago
        ≤ (MAX_LIZARD_CROSSING : Int)) := by
  constructor
  · refine ⟨{ currentDirection := .MONKEY_GRASS_TO_SAGO
              numCrossingSago2MonkeyGrass := 0
              numCrossingMonkeyGrass2Sago := 1
              driveway_sem := 0
              running := true
              exitStatus := some (-1)
              lizards := [.eat, .postS2M, .postS2M, .postS2M, .checkM2S]
              cats := [.readM2S 4] }, by decide, rfl, by decide⟩
  · refine ⟨{ numCrossingSago2MonkeyGrass := 3
              numCrossingMonkeyGrass2Sago := 1
              driveway_sem := 0
              running := true
              exitStatus := some (-1)
              lizards := [.eat, .checkS2M, .checkS2M, .checkS2M, .checkM2S]
              cats := [.readM2S 4] }, by decide, rfl, by decide⟩

/-! ## Random durations -/

/-- The duration computed from `random()` returning `r`, by integer division. -/
theorem randomSeconds_eq_div (randMax r M : Nat) :
    randomSeconds randMax r M = 1 + ((r * M / randMax : Nat) : Int) := by
  unfold randomSeconds truncToInt
  have hq : (0 : ℚ) ≤ (r : ℚ) / (randMax : ℚ) * (M : ℚ) := by positivity
  rw [if_pos hq]
  have e : (r : ℚ) / (randMax : ℚ) * (M : ℚ) = ((r * M : Nat) : ℚ) / ((randMax : Nat) : ℚ) := by
    push_cast
    ring
  rw [e, Rat.floor_natCast_div_natCast]
  norm_cast

/-- When `random()` returns `RAND_MAX` the duration is one more than the
configured maximum. -/
theorem randomSeconds_at_randMax (randMax M : Nat) (h : 0 < randMax) :
    randomSeconds randMax randMax M = (M : Int) + 1 := by
  rw [randomSeconds_eq_div, Nat.mul_comm, Nat.mul_div_cancel _ h]
  omega

/-- For every value of `random()` below `RAND_MAX` the duration is in `[1, M]`. -/
theorem randomSeconds_range_below (randMax r M : Nat) (hr : r < randMax) (hM : 0 < M) :
    1 ≤ randomSeconds randMax r M ∧ randomSeconds randMax r M ≤ (M : Int) := by
  rw [randomSeconds_eq_div]
  have h1 : r * M / randMax < M := by
    apply Nat.div_lt_of_lt_mul
    exact Nat.mul_lt_mul_of_pos_right hr hM
  generalize r * M / randMax = q at h1
  omega

/-- C9. With `RAND_MAX = 2147483647` and `random()` returning `RAND_MAX`, the
durations computed by `Lizard::sleepNow`, `Lizard::eat` and `Cat::sleepNow` are
`MAX_LIZARD_SLEEP + 1`, `MAX_LIZARD_EAT + 1` and `MAX_CAT_SLEEP + 1`: one second
above the configured maximum. -/
theorem C9_duration_exceeds_max :
    Lizard.sleepSeconds 2147483647 2147483647 = (MAX_LIZARD_SLEEP : Int) + 1 ∧
    Lizard.eatSeconds 2147483647 2147483647 = (MAX_LIZARD_EAT : Int) + 1 ∧
    Cat.sleepSeconds 2147483647 2147483647 = (MAX_CAT_SLEEP : Int) + 1 ∧
    ¬ (Lizard.sleepSeconds 2147483647 2147483647 ≤ (MAX_LIZARD_SLEEP : Int)) := by
  have h1 := randomSeconds_at_randMax 2147483647 MAX_LIZARD_SLEEP (by decide)
  have h2 := randomSeconds_at_randMax 2147483647 MAX_LIZARD_EAT (by decide)
  have h3 := randomSeconds_at_randMax 2147483647 MAX_CAT_SLEEP (by decide)
  refine ⟨h1, h2, h3, ?_⟩
  unfold Lizard.sleepSeconds
  omega

/-! ## Simplified entry guards -/

namespace Uni

/-- Where the guards agree with the implemented predicates, the arbiter with
the guards takes the same transition. -/
theorem uni_stepWith_eq (g1 g2 : State → Bool) (s : State) (a : Action)
    (h1 : g1 s = predS2M s) (h2 : g2 s = predM2S s) : stepWith g1 g2 s a = step s a := by
  unfold stepWith step
  cases a with
  | lizard i =>
      simp only
      have e : lizardStepWith g1 g2 s i = lizardStep s i := by
        unfold lizardStepWith lizardStep
        rw [h1, h2]
        cases s.lizards[i]? with
        | none => rfl
        | some pc => cases pc <;> rfl
      rw [e]
  | spurious i => rfl
  | cat j => rfl
  | worldEnd => rfl

theorem uni_runWith_eq (g1 g2 : State → Bool)
    (hg : ∀ s, Inv s → g1 s = predS2M s ∧ g2 s = predM2S s)
    (schedule : List Action) (s : State) (h : Inv s) :
    runWith g1 g2 s schedule = run s schedule := by
  induction schedule generalizing s with
  | nil => rfl
  | cons a rest ih =>
      simp only [runWith, run]
      rw [uni_stepWith_eq g1 g2 s a (hg s h).1 (hg s h).2]
      cases hstep : step s a with
      | none => rfl
      | some u => exact ih u (uni_inv_step s u a h hstep)

/-- In a state satisfying the invariant the implemented predicates coincide
with both simplified guards. -/
theorem uni_guards_eq (s : State) (h : Inv s) :
    (countGuardS2M s = predS2M s ∧ countGuardM2S s = predM2S s) ∧
    (directionGuardS2M s = predS2M s ∧ directionGuardM2S s = predM2S s) := by
  obtain ⟨-, -, hd⟩ := h
  obtain ⟨dir, f, b, sem, rn, ex, lz, cs⟩ := s
  simp only [DirectionInv] at hd
  simp only [countGuardS2M, countGuardM2S, directionGuardS2M, directionGuardM2S, predS2M,
    predM2S]
  cases dir
  · obtain ⟨h1, h2⟩ := hd
    subst h1 h2
    decide
  · obtain ⟨h1, h2⟩ := hd
    subst h2
    have h3 : (f == 0) = false := by simpa using (show f ≠ 0 by omega)
    rw [h3]
    decide
  · obtain ⟨h1, h2⟩ := hd
    subst h2
    have h3 : (b == 0) = false := by simpa using (show b ≠ 0 by omega)
    rw [h3]
    decide

/-- C16. Entry-guard simplification: in every reachable state of lizardsUni.cpp
each entry predicate has the same value as "the opposite count is 0" and as
"`currentDirection` is not the opposite direction"; and an arbiter that waits
on the opposite count alone, or on `currentDirection` alone, yields for every
schedule from the initial state the same result as the implemented one (the
same schedules are executable and they reach the same states). -/
theorem C16_entry_guard_simplification (n m : Nat) (schedule : List Action) (s : State)
    (hs : run (init n m) schedule = some s) :
    (predS2M s = true ↔ s.numCrossingMonkeyGrass2Sago = 0) ∧
    (predS2M s = true ↔ s.currentDirection ≠ .MONKEY_GRASS_TO_SAGO) ∧
    (predM2S s = true ↔ s.numCrossingSago2MonkeyGrass = 0) ∧
    (predM2S s = true ↔ s.currentDirection ≠ .SAGO_TO_MONKEY_GRASS) ∧
    (∀ other : List Action,
      runWith countGuardS2M countGuardM2S (init n m) other = run (init n m) other) ∧
    (∀ other : List Action,
      runWith directionGuardS2M directionGuardM2S (init n m) other = run (init n m) other) ∧
    runWith predS2M predM2S (init n m) schedule = some s := by
  have hinv := uni_inv_reachable s ⟨n, m, schedule, hs⟩
  obtain ⟨⟨c1, c2⟩, ⟨d1, d2⟩⟩ := uni_guards_eq s hinv
  refine ⟨?_, ?_, ?_, ?_, ?_, ?_, ?_⟩
  · rw [← c1]
    simp [countGuardS2M]
  · rw [← d1]
    simp [directionGuardS2M]
  · rw [← c2]
    simp [countGuardM2S]
  · rw [← d2]
    simp [directionGuardM2S]
  · intro other
    exact uni_runWith_eq _ _ (fun u hu => (uni_guards_eq u hu).1) other _ (uni_inv_init n m)
  · intro other
    exact uni_runWith_eq _ _ (fun u hu => (uni_guards_eq u hu).2) other _ (uni_inv_init n m)
  · rw [uni_runWith_eq _ _ (fun _ _ => ⟨rfl, rfl⟩) schedule _ (uni_inv_init n m)]
    exact hs

/-- C16 at the reachable state `oneForward`. -/
theorem C16_entry_guard_simplification_witness :
    (predS2M oneForward = true ↔ oneForward.numCrossingMonkeyGrass2Sago = 0) ∧
    runWith countGuardS2M countGuardM2S (init 2 1) oneForwardSchedule =
      run (init 2 1) oneForwardSchedule :=
  have h := C16_entry_guard_simplification 2 1 oneForwardSchedule oneForward (by decide)
  ⟨h.1, h.2.2.2.2.1 oneForwardSchedule⟩

end Uni

/-! ## No missed wakeup -/

theorem countPC_map_eq_zero {α : Type} (p : α → Bool) (f : α → α)
    (hf : ∀ x, p (f x) = false) (xs : List α) : countPC p (xs.map f) = 0 := by
  induction xs with
  | nil => rfl
  | cons x xs ih => simp [countPC, ih, hf]

theorem countPC_eq_zero_at {α : Type} (p : α → Bool) (l : List α) (i : Nat) (x : α)
    (h0 : countPC p l = 0) (h : l[i]? = some x) : p x = false := by
  obtain ⟨l1, l2, rfl, -, -⟩ := split_at_thread l i x h
  simp only [countPC_append, countPC_cons] at h0
  cases hp : p x
  · rfl
  · simp [hp] at h0

namespace Uni

theorem isAsleepS2M_wake (pc : LizardPC) : isAsleepS2M (wake pc) = false := by
  cases pc <;> rfl

theorem isAsleepM2S_wake (pc : LizardPC) : isAsleepM2S (wake pc) = false := by
  cases pc <;> rfl

theorem uni_asleepInv_init (n m : Nat) : AsleepInv (init n m) := by
  constructor <;> intro _ <;> simp [init, countPC_replicate, isAsleepS2M, isAsleepM2S]

theorem uni_asleepInv_lizardStep (s t : State) (i : Nat) (h : Inv s) (ha : AsleepInv s)
    (hs : lizardStep s i = some t) : AsleepInv t := by
  obtain ⟨dir, f, b, sem, rn, ex, lz, cs⟩ := s
  obtain ⟨-, -, hd⟩ := h
  simp only [DirectionInv] at hd
  simp only [AsleepInv] at ha
  unfold lizardStep at hs
  simp only at hs
  split at hs
  all_goals try contradiction
  all_goals
    rename_i heq
    obtain ⟨l1, l2, rfl, hlen, -⟩ := split_at_thread lz i _ heq
    simp only [countPC_append, countPC_cons, isAsleepS2M, isAsleepM2S] at ha
    simp only [setPC, claimS2M, claimM2S, completeS2M, completeM2S, exitProcess, notify_all,
      predS2M, predM2S, UNIDIRECTIONAL] at hs
  all_goals
    repeat' split at hs
  all_goals try contradiction
  all_goals
    simp only [Option.some.injEq] at hs
    subst hs
    have hlen2 : (List.map wake l1).length = i := by simpa using hlen
    simp only [AsleepInv, set_mid _ _ _ _ _ hlen, set_mid _ _ _ _ _ hlen2, List.map_append,
      List.map_cons, countPC_append, countPC_cons, countPC_map_eq_zero _ _ isAsleepS2M_wake,
      countPC_map_eq_zero _ _ isAsleepM2S_wake, isAsleepS2M, isAsleepM2S, wake] at *
  all_goals
    cases dir <;> simp at * <;> omega

end Uni

namespace Uni

theorem uni_asleepInv_spuriousStep (s t : State) (i : Nat) (ha : AsleepInv s)
    (hs : spuriousStep s i = some t) : AsleepInv t := by
  obtain ⟨dir, f, b, sem, rn, ex, lz, cs⟩ := s
  simp only [AsleepInv] at ha
  unfold spuriousStep at hs
  simp only at hs
  split at hs
  all_goals try contradiction
  all_goals
    rename_i heq
    obtain ⟨l1, l2, rfl, hlen, -⟩ := split_at_thread lz i _ heq
    simp only [countPC_append, countPC_cons, isAsleepS2M, isAsleepM2S] at ha
    simp only [setPC, Option.some.injEq] at hs
    subst hs
    simp only [AsleepInv, set_mid _ _ _ _ _ hlen, countPC_append, countPC_cons, isAsleepS2M,
      isAsleepM2S] at *
    cases dir <;> first
      | (simp at *; done)
      | (simp at *; omega)

theorem uni_asleepInv_step (s t : State) (a : Action) (h : Inv s) (ha : AsleepInv s)
    (hs : step s a = some t) : AsleepInv t := by
  unfold step at hs
  split at hs
  · contradiction
  · cases a with
    | lizard i => exact uni_asleepInv_lizardStep s t i h ha hs
    | spurious i => exact uni_asleepInv_spuriousStep s t i ha hs
    | cat j =>
        obtain ⟨h1, -, -, -, h5, -⟩ := uni_catStep_shared s t j hs
        unfold AsleepInv at *
        rw [h1, h5]
        exact ha
    | worldEnd =>
        simp only at hs
        split at hs
        · simp only [Option.some.injEq] at hs
          subst hs
          exact ha
        · contradiction

theorem uni_asleepInv_run (schedule : List Action) (s t : State) (h : Inv s)
    (ha : AsleepInv s) (hs : run s schedule = some t) : AsleepInv t := by
  induction schedule generalizing s with
  | nil =>
      simp only [run, Option.some.injEq] at hs
      subst hs
      exact ha
  | cons a rest ih =>
      simp only [run] at hs
      split at hs
      · contradiction
      · rename_i u hu
        exact ih u (uni_inv_step s u a h hu) (uni_asleepInv_step s u a h ha hu) hs

theorem uni_asleepInv_reachable (s : State) (h : Reachable s) : AsleepInv s := by
  obtain ⟨n, m, schedule, hs⟩ := h
  exact uni_asleepInv_run schedule _ s (uni_inv_init n m) (uni_asleepInv_init n m) hs

/-- A step that turns an entry predicate from false to true is the completion
section of a lizard that drains its direction and notifies all waiters.  This
holds in every state, reachable or not. -/
theorem uni_pred_flip (s t : State) (a : Action) (hs : step s a = some t)
    (hflip : (predS2M s = false ∧ predS2M t = true) ∨
      (predM2S s = false ∧ predM2S t = true)) :
    ∃ i, a = .lizard i ∧ t.currentDirection = .NONE ∧
      ((s.lizards[i]? = some .crossS2M ∧ t.numCrossingSago2MonkeyGrass = 0 ∧
          t.lizards = (notify_all s.lizards).set i .postS2M) ∨
        (s.lizards[i]? = some .crossM2S ∧ t.numCrossingMonkeyGrass2Sago = 0 ∧
          t.lizards = (notify_all s.lizards).set i .postM2S)) := by
  unfold step at hs
  split at hs
  · contradiction
  · cases a with
    | lizard i =>
        refine ⟨i, rfl, ?_⟩
        simp only at hs
        obtain ⟨dir, f, b, sem, rn, ex, lz, cs⟩ := s
        unfold lizardStep at hs
        simp only at hs
        split at hs
        all_goals try contradiction
        all_goals
          rename_i heq
          simp only [setPC, claimS2M, claimM2S, completeS2M, completeM2S, exitProcess] at hs
        all_goals
          repeat' split at hs
        all_goals try contradiction
        all_goals
          simp only [Option.some.injEq] at hs
          subst hs
          simp only [predS2M, predM2S] at *
        all_goals
          cases dir <;> simp_all
    | spurious i =>
        exfalso
        simp only at hs
        unfold spuriousStep at hs
        split at hs
        all_goals try contradiction
        all_goals
          simp only [setPC, Option.some.injEq] at hs
          subst hs
          simp only [predS2M, predM2S] at hflip
          rcases hflip with ⟨h4, h5⟩ | ⟨h4, h5⟩ <;> rw [h4] at h5 <;> contradiction
    | cat j =>
        exfalso
        obtain ⟨h1, h2, h3, -, -, -⟩ := uni_catStep_shared s t j hs
        simp only [predS2M, predM2S, h1, h2, h3] at hflip
        rcases hflip with ⟨h4, h5⟩ | ⟨h4, h5⟩ <;> rw [h4] at h5 <;> contradiction
    | worldEnd =>
        exfalso
        simp only at hs
        split at hs
        · simp only [Option.some.injEq] at hs
          subst hs
          simp only [predS2M, predM2S] at hflip
          rcases hflip with ⟨h4, h5⟩ | ⟨h4, h5⟩ <;> rw [h4] at h5 <;> contradiction
        · contradiction

end Uni

namespace Uni

/-- C14. No missed wakeup: in lizardsUni.cpp a step from a reachable state that
turns an entry predicate from false to true is the completion section of a
lizard that brings its direction's count to 0, resets `currentDirection` and
performs `notify_all` in that same step; a lizard evaluating its predicate
(entering or falling asleep) and a completion that leaves the count nonzero
never turn a false predicate true; and every lizard asleep on `direction_CV`
has a false entry predicate. -/
theorem C14_no_missed_wakeup (s t : State) (a : Action) (k : Nat) (h : Reachable s)
    (hs : step s a = some t) :
    ((predS2M s = false ∧ predS2M t = true) ∨ (predM2S s = false ∧ predM2S t = true) →
      ∃ i, a = .lizard i ∧ t.currentDirection = .NONE ∧
        ((s.lizards[i]? = some .crossS2M ∧ t.numCrossingSago2MonkeyGrass = 0 ∧
            t.lizards = (notify_all s.lizards).set i .postS2M) ∨
          (s.lizards[i]? = some .crossM2S ∧ t.numCrossingMonkeyGrass2Sago = 0 ∧
            t.lizards = (notify_all s.lizards).set i .postM2S))) ∧
    (a = .lizard k →
      s.lizards[k]? = some .waitS2M ∨ s.lizards[k]? = some .waitM2S ∨
        (s.lizards[k]? = some .crossS2M ∧ t.numCrossingSago2MonkeyGrass ≠ 0) ∨
        (s.lizards[k]? = some .crossM2S ∧ t.numCrossingMonkeyGrass2Sago ≠ 0) →
      (predS2M s = false → predS2M t = false) ∧ (predM2S s = false → predM2S t = false)) ∧
    (s.lizards[k]? = some .asleepS2M → predS2M s = false) ∧
    (s.lizards[k]? = some .asleepM2S → predM2S s = false) := by
  have hinv := uni_inv_reachable s h
  have hasleep := uni_asleepInv_reachable s h
  refine ⟨uni_pred_flip s t a hs, ?_, ?_, ?_⟩
  · intro ha hk
    subst ha
    have key : ∀ (p : State → Bool), ¬ ((p s = false ∧ p t = true)) →
        (p s = false → p t = false) := by
      intro p hn hp
      cases hpt : p t
      · rfl
      · exact absurd ⟨hp, hpt⟩ hn
    constructor
    · apply key predS2M
      intro hflip
      obtain ⟨i, hi, -, hcase⟩ := uni_pred_flip s t _ hs (Or.inl hflip)
      cases hi
      rcases hcase with ⟨h1, h2, -⟩ | ⟨h1, h2, -⟩ <;>
        rcases hk with h3 | h3 | ⟨h3, h4⟩ | ⟨h3, h4⟩ <;> simp_all
    · apply key predM2S
      intro hflip
      obtain ⟨i, hi, -, hcase⟩ := uni_pred_flip s t _ hs (Or.inr hflip)
      cases hi
      rcases hcase with ⟨h1, h2, -⟩ | ⟨h1, h2, -⟩ <;>
        rcases hk with h3 | h3 | ⟨h3, h4⟩ | ⟨h3, h4⟩ <;> simp_all
  · intro hk
    have hd : s.currentDirection = .MONKEY_GRASS_TO_SAGO := by
      by_contra hne
      have h0 := countPC_eq_zero_at isAsleepS2M s.lizards k _ (hasleep.1 hne) hk
      simp [isAsleepS2M] at h0
    obtain ⟨-, -, hdir⟩ := hinv
    unfold DirectionInv at hdir
    rw [hd] at hdir
    simp [predS2M, hd]
  · intro hk
    have hd : s.currentDirection = .SAGO_TO_MONKEY_GRASS := by
      by_contra hne
      have h0 := countPC_eq_zero_at isAsleepM2S s.lizards k _ (hasleep.2 hne) hk
      simp [isAsleepM2S] at h0
    simp [predM2S, hd]

/-- C14 at `waiterAsleep`: the completion of lizard 0 turns the forward
predicate true and wakes lizard 1, which was asleep with a false predicate. -/
theorem C14_no_missed_wakeup_witness :
    (∃ i, Action.lizard 0 = Action.lizard i ∧ waiterNotified.currentDirection = .NONE ∧
      ((waiterAsleep.lizards[i]? = some .crossS2M ∧
          waiterNotified.numCrossingSago2MonkeyGrass = 0 ∧
          waiterNotified.lizards = (notify_all waiterAsleep.lizards).set i .postS2M) ∨
        (waiterAsleep.lizards[i]? = some .crossM2S ∧
          waiterNotified.numCrossingMonkeyGrass2Sago = 0 ∧
          waiterNotified.lizards = (notify_all waiterAsleep.lizards).set i .postM2S))) ∧
    predS2M waiterAsleep = false :=
  have h := C14_no_missed_wakeup waiterAsleep waiterNotified (.lizard 0) 1
    ⟨2, 1, waiterAsleepSchedule, by decide⟩ (by decide)
  ⟨h.1 (Or.inl ⟨by decide, by decide⟩), h.2.2.1 rfl⟩

end Uni

/-! ## Absence of deadlock -/

theorem countPC_pos_exists {α : Type} (p : α → Bool) (l : List α) (h : 0 < countPC p l) :
    ∃ (j : Nat) (x : α), l[j]? = some x ∧ p x = true := by
  induction l with
  | nil => simp [countPC] at h
  | cons a l ih =>
      by_cases ha : p a = true
      · exact ⟨0, a, by simp, ha⟩
      · simp only [countPC, ha] at h
        obtain ⟨j, x, hj, hx⟩ := ih (by simpa using h)
        exact ⟨j + 1, x, by simpa using hj, hx⟩

namespace Uni

theorem uni_holders_partition (l : List LizardPC) :
    countPC holdsPermit l =
      countPC atPredicate l + countPC isAsleepS2M l + countPC isAsleepM2S l +
        countPC traversing l + countPC pastTraversal l := by
  induction l with
  | nil => rfl
  | cons pc l ih =>
      simp only [countPC]
      cases pc <;>
        simp [holdsPermit, atPredicate, isAsleepS2M, isAsleepM2S, traversing, pastTraversal] <;>
        omega

theorem uni_traversing_split (l : List LizardPC) :
    countPC traversing l = countPC countedS2M l + countPC countedM2S l := by
  induction l with
  | nil => rfl
  | cons pc l ih =>
      simp only [countPC]
      cases pc <;> simp [traversing, countedS2M, countedM2S] <;> omega

/-- In a state satisfying the invariant a lizard at a pile-up check passes it. -/
theorem uni_check_passes (s : State) (h : Inv s) (i : Nat) :
    (s.lizards[i]? = some .checkS2M → lizardStep s i = some (setPC s i .crossS2M)) ∧
    (s.lizards[i]? = some .checkM2S → lizardStep s i = some (setPC s i .crossM2S)) := by
  obtain ⟨-, ⟨hf, hb⟩, hd⟩ := h
  have excl : ¬ (0 < s.numCrossingSago2MonkeyGrass ∧ 0 < s.numCrossingMonkeyGrass2Sago) := by
    unfold DirectionInv at hd
    split at hd <;> omega
  constructor
  · intro hi
    have hpos := uni_counted_pos countedS2M s.lizards i _ hi rfl
    have hz : ¬ 0 < s.numCrossingMonkeyGrass2Sago := fun hc => excl ⟨by omega, hc⟩
    simp [lizardStep, hi, hz]
  · intro hi
    have hpos := uni_counted_pos countedM2S s.lizards i _ hi rfl
    have hz : ¬ 0 < s.numCrossingSago2MonkeyGrass := fun hc => excl ⟨hc, by omega⟩
    simp [lizardStep, hi, hz]

theorem uni_getElem?_notify (l : List LizardPC) (j : Nat) (pc : LizardPC)
    (h : l[j]? = some pc) : (notify_all l)[j]? = some (wake pc) := by
  simp [notify_all, h]

/-- A lizard that is mid-traversal or at its `sem_post` can proceed. -/
theorem uni_canProceed_holder (s : State) (h : Inv s) (hrun : s.exitStatus = none) (j : Nat)
    (pc : LizardPC) (hj : s.lizards[j]? = some pc)
    (hpc : traversing pc = true ∨ pastTraversal pc = true) : canProceed s j = true := by
  have hchk := uni_check_passes s h j
  have hset := fun (y : LizardPC) => getElem?_set_self_of_some s.lizards j pc y hj
  have hset2 := fun (y : LizardPC) =>
    getElem?_set_self_of_some (notify_all s.lizards) j (wake pc) y
      (uni_getElem?_notify s.lizards j pc hj)
  unfold canProceed step
  simp only [hrun, Option.isSome_none, Bool.false_eq_true, if_false]
  cases pc <;> simp [traversing, pastTraversal] at hpc
  · rw [hchk.1 hj]
    simp [setPC, hrun, hset, isAsleepS2M, isAsleepM2S]
  · simp only [lizardStep, hj, completeS2M, setPC]
    split <;> simp [hrun, hset, hset2, isAsleepS2M, isAsleepM2S]
  · simp [lizardStep, hj, setPC, hrun, hset, isAsleepS2M, isAsleepM2S]
  · rw [hchk.2 hj]
    simp [setPC, hrun, hset, isAsleepS2M, isAsleepM2S]
  · simp only [lizardStep, hj, completeM2S, setPC]
    split <;> simp [hrun, hset, hset2, isAsleepS2M, isAsleepM2S]
  · simp [lizardStep, hj, setPC, hrun, hset, isAsleepS2M, isAsleepM2S]

/-- A lizard about to evaluate its predicate while the direction is `NONE`
can proceed. -/
theorem uni_canProceed_atPredicate (s : State) (hrun : s.exitStatus = none) (j : Nat)
    (pc : LizardPC) (hj : s.lizards[j]? = some pc) (hpc : atPredicate pc = true)
    (hd : s.currentDirection = .NONE) : canProceed s j = true := by
  have hset := fun (y : LizardPC) => getElem?_set_self_of_some s.lizards j pc y hj
  unfold canProceed step
  simp only [hrun, Option.isSome_none, Bool.false_eq_true, if_false]
  cases pc <;> simp [atPredicate] at hpc
  · simp [lizardStep, hj, predS2M, hd, setPC, claimS2M, hrun, hset, isAsleepS2M, isAsleepM2S]
  · simp [lizardStep, hj, predM2S, hd, setPC, claimM2S, hrun, hset, isAsleepS2M, isAsleepM2S]

theorem uni_canProceed_isSome (s : State) (j : Nat) (h : canProceed s j = true) :
    (step s (.lizard j)).isSome = true := by
  unfold canProceed at h
  cases hstep : step s (.lizard j) with
  | none => simp [hstep] at h
  | some t => rfl

end Uni

namespace Uni

/-- When an entry predicate is false some lizard is mid-traversal. -/
theorem uni_traversing_of_pred_false (s : State) (h : Inv s)
    (hp : predS2M s = false ∨ predM2S s = false) : 0 < countPC traversing s.lizards := by
  obtain ⟨-, ⟨hf, hb⟩, hd⟩ := h
  rw [uni_traversing_split]
  unfold DirectionInv at hd
  split at hd <;> rename_i hdir
  · rcases hp with hp | hp <;> simp [predS2M, predM2S, hdir] at hp
  · omega
  · omega

/-- A lizard blocked on the direction predicate has a false predicate and is
not itself mid-traversal. -/
theorem uni_blockedOnDirection_pred (s : State) (h : Inv s) (ha : AsleepInv s) (i : Nat)
    (hb : blockedOnDirection s i) :
    (predS2M s = false ∨ predM2S s = false) ∧
      ∀ pc, s.lizards[i]? = some pc → traversing pc = false := by
  obtain ⟨-, -, hd⟩ := h
  rcases hb with hk | hk | ⟨hk, hp⟩ | ⟨hk, hp⟩
  · refine ⟨Or.inl ?_, ?_⟩
    · have hdir : s.currentDirection = .MONKEY_GRASS_TO_SAGO := by
        by_contra hne
        have h0 := countPC_eq_zero_at isAsleepS2M s.lizards i _ (ha.1 hne) hk
        simp [isAsleepS2M] at h0
      simp [predS2M, hdir]
    · intro pc hpc
      rw [hk] at hpc
      cases hpc
      rfl
  · refine ⟨Or.inr ?_, ?_⟩
    · have hdir : s.currentDirection = .SAGO_TO_MONKEY_GRASS := by
        by_contra hne
        have h0 := countPC_eq_zero_at isAsleepM2S s.lizards i _ (ha.2 hne) hk
        simp [isAsleepM2S] at h0
      simp [predM2S, hdir]
    · intro pc hpc
      rw [hk] at hpc
      cases hpc
      rfl
  · refine ⟨Or.inl hp, ?_⟩
    intro pc hpc
    rw [hk] at hpc
    cases hpc
    rfl
  · refine ⟨Or.inr hp, ?_⟩
    intro pc hpc
    rw [hk] at hpc
    cases hpc
    rfl

/-- A lizard blocked on the direction predicate coexists with another lizard
that is mid-traversal and can proceed. -/
theorem uni_progress_blockedOnDirection (s : State) (h : Inv s) (ha : AsleepInv s)
    (hrun : s.exitStatus = none) (i : Nat) (hb : blockedOnDirection s i) :
    ∃ (j : Nat) (pc : LizardPC), j ≠ i ∧ s.lizards[j]? = some pc ∧ traversing pc = true ∧
      canProceed s j = true := by
  obtain ⟨hp, hself⟩ := uni_blockedOnDirection_pred s h ha i hb
  obtain ⟨j, pc, hj, hpc⟩ := countPC_pos_exists traversing s.lizards
    (uni_traversing_of_pred_false s h hp)
  refine ⟨j, pc, ?_, hj, hpc, uni_canProceed_holder s h hrun j pc hj (Or.inl hpc)⟩
  intro hji
  subst hji
  rw [hself pc hj] at hpc
  contradiction

/-- A lizard blocked in `sem_wait` coexists with another lizard that holds a
permit and can proceed: one mid-traversal, one at its `sem_post`, or one about
to evaluate its predicate while the direction is `NONE`. -/
theorem uni_progress_blockedInSemWait (s : State) (h : Inv s) (ha : AsleepInv s)
    (hrun : s.exitStatus = none) (i : Nat) (hb : blockedInSemWait s i) :
    ∃ (j : Nat) (pc : LizardPC), j ≠ i ∧ s.lizards[j]? = some pc ∧ canProceed s j = true ∧
      (traversing pc = true ∨ pastTraversal pc = true ∨
        (atPredicate pc = true ∧ s.currentDirection = .NONE)) := by
  obtain ⟨hi, hsem⟩ := hb
  have hg := h.1
  obtain ⟨hf, hbw⟩ := h.2.1
  have hd := h.2.2
  unfold GateInv permitsInUse at hg
  have hK : MAX_LIZARD_CROSSING = 4 := rfl
  have hpart := uni_holders_partition s.lizards
  have hsplit := uni_traversing_split s.lizards
  have hne : ∀ (j : Nat) (pc : LizardPC), s.lizards[j]? = some pc → holdsPermit pc = true →
      j ≠ i := by
    intro j pc hj hh hji
    subst hji
    rcases hi with hi | hi <;> rw [hi] at hj <;> cases hj <;> simp [holdsPermit] at hh
  by_cases ht : 0 < countPC traversing s.lizards
  · obtain ⟨j, pc, hj, hpc⟩ := countPC_pos_exists traversing s.lizards ht
    refine ⟨j, pc, hne j pc hj ?_, hj, uni_canProceed_holder s h hrun j pc hj (Or.inl hpc),
      Or.inl hpc⟩
    cases pc <;> simp [traversing] at hpc <;> rfl
  · by_cases hpast : 0 < countPC pastTraversal s.lizards
    · obtain ⟨j, pc, hj, hpc⟩ := countPC_pos_exists pastTraversal s.lizards hpast
      refine ⟨j, pc, hne j pc hj ?_, hj, uni_canProceed_holder s h hrun j pc hj (Or.inr hpc),
        Or.inr (Or.inl hpc)⟩
      cases pc <;> simp [pastTraversal] at hpc <;> rfl
    · have hdir : s.currentDirection = .NONE := by
        unfold DirectionInv at hd
        split at hd <;> rename_i hdir
        · exact hdir
        · omega
        · omega
      have h1 := ha.1 (by rw [hdir]; simp)
      have h2 := ha.2 (by rw [hdir]; simp)
      have hat : 0 < countPC atPredicate s.lizards := by omega
      obtain ⟨j, pc, hj, hpc⟩ := countPC_pos_exists atPredicate s.lizards hat
      refine ⟨j, pc, hne j pc hj ?_, hj,
        uni_canProceed_atPredicate s hrun j pc hj hpc hdir, Or.inr (Or.inr ⟨hpc, hdir⟩)⟩
      cases pc <;> simp [atPredicate] at hpc <;> rfl

/-- In a running reachable state with a lizard that has not returned, some
lizard has an enabled step. -/
theorem uni_not_stuck (s : State) (h : Inv s) (ha : AsleepInv s)
    (hrun : s.exitStatus = none)
    (hlive : ∃ (k : Nat) (pc : LizardPC), s.lizards[k]? = some pc ∧ pc ≠ .returned) :
    ∃ j, (step s (.lizard j)).isSome = true := by
  obtain ⟨k, pc, hk, hpc⟩ := hlive
  have hdirBlocked : blockedOnDirection s k → ∃ j, (step s (.lizard j)).isSome = true := by
    intro hb
    obtain ⟨j, -, -, -, -, hc⟩ := uni_progress_blockedOnDirection s h ha hrun k hb
    exact ⟨j, uni_canProceed_isSome s j hc⟩
  have hsemBlocked : blockedInSemWait s k → ∃ j, (step s (.lizard j)).isSome = true := by
    intro hb
    obtain ⟨j, -, -, -, hc, -⟩ := uni_progress_blockedInSemWait s h ha hrun k hb
    exact ⟨j, uni_canProceed_isSome s j hc⟩
  cases pc
  case returned => exact absurd rfl hpc
  case asleepS2M => exact hdirBlocked (Or.inl hk)
  case asleepM2S => exact hdirBlocked (Or.inr (Or.inl hk))
  case semWaitS2M =>
    by_cases hsem : 0 < s.driveway_sem
    · exact ⟨k, by simp [step, hrun, lizardStep, hk, hsem]⟩
    · exact hsemBlocked ⟨Or.inl hk, by omega⟩
  case semWaitM2S =>
    by_cases hsem : 0 < s.driveway_sem
    · exact ⟨k, by simp [step, hrun, lizardStep, hk, hsem]⟩
    · exact hsemBlocked ⟨Or.inr hk, by omega⟩
  all_goals
    refine ⟨k, ?_⟩
    simp only [step, hrun, Option.isSome_none, Bool.false_eq_true, if_false, lizardStep, hk]
    first
      | rfl
      | (split <;> rfl)

end Uni

namespace Bi

/-- In a running reachable state of lizards.cpp with a lizard that has not
returned, some lizard has an enabled step. -/
theorem bi_not_stuck (s : State) (h : Inv s) (hrun : s.exitStatus = none)
    (hlive : ∃ (k : Nat) (pc : LizardPC), s.lizards[k]? = some pc ∧ pc ≠ .returned) :
    ∃ j, (step s (.lizard j)).isSome = true := by
  obtain ⟨k, pc, hk, hpc⟩ := hlive
  have hg := h.1
  unfold GateInv permitsInUse at hg
  have hK : MAX_LIZARD_CROSSING = 4 := rfl
  have hsemBlocked : s.driveway_sem = 0 → ∃ j, (step s (.lizard j)).isSome = true := by
    intro hsem
    obtain ⟨j, pcj, hj, hh⟩ := countPC_pos_exists holdsPermit s.lizards (by omega)
    refine ⟨j, ?_⟩
    cases pcj <;> simp [holdsPermit] at hh <;>
      simp only [step, hrun, Option.isSome_none, Bool.false_eq_true, if_false, lizardStep,
        hj] <;>
      first
        | rfl
        | (split <;> rfl)
  cases pc
  case returned => exact absurd rfl hpc
  case semWaitS2M =>
    by_cases hsem : 0 < s.driveway_sem
    · exact ⟨k, by simp [step, hrun, lizardStep, hk, hsem]⟩
    · exact hsemBlocked (by omega)
  case semWaitM2S =>
    by_cases hsem : 0 < s.driveway_sem
    · exact ⟨k, by simp [step, hrun, lizardStep, hk, hsem]⟩
    · exact hsemBlocked (by omega)
  all_goals
    refine ⟨k, ?_⟩
    simp only [step, hrun, Option.isSome_none, Bool.false_eq_true, if_false, lizardStep, hk]
    first
      | rfl
      | (split <;> rfl)

end Bi

/-- C11. No deadlock: in both programs, in every reachable state of a
running process in which some lizard has not returned, some lizard has an
enabled step.  In lizardsUni.cpp a lizard blocked on the direction predicate
coexists with another lizard that is mid-traversal and can proceed; a lizard
blocked in `sem_wait` coexists with another lizard that holds a permit and can
proceed, and that lizard is mid-traversal, or at its `sem_post`, or about to
evaluate its entry predicate while `currentDirection` is `NONE`. -/
theorem C11_no_deadlock (s : Uni.State) (hs : Uni.Reachable s) (hrun : s.exitStatus = none)
    (b : Bi.State) (hb : Bi.Reachable b) (hrun2 : b.exitStatus = none) (i : Nat) :
    ((∃ (k : Nat) (pc : Uni.LizardPC), s.lizards[k]? = some pc ∧ pc ≠ .returned) →
      ∃ j, (Uni.step s (.lizard j)).isSome = true) ∧
    ((∃ (k : Nat) (pc : Bi.LizardPC), b.lizards[k]? = some pc ∧ pc ≠ .returned) →
      ∃ j, (Bi.step b (.lizard j)).isSome = true) ∧
    (Uni.blockedOnDirection s i →
      ∃ (j : Nat) (pc : Uni.LizardPC), j ≠ i ∧ s.lizards[j]? = some pc ∧
        Uni.traversing pc = true ∧ Uni.canProceed s j = true) ∧
    (Uni.blockedInSemWait s i →
      ∃ (j : Nat) (pc : Uni.LizardPC), j ≠ i ∧ s.lizards[j]? = some pc ∧
        Uni.canProceed s j = true ∧
        (Uni.traversing pc = true ∨ Uni.pastTraversal pc = true ∨
          (Uni.atPredicate pc = true ∧ s.currentDirection = .NONE))) := by
  have hinv := Uni.uni_inv_reachable s hs
  have hasleep := Uni.uni_asleepInv_reachable s hs
  exact ⟨Uni.uni_not_stuck s hinv hasleep hrun,
    Bi.bi_not_stuck b (Bi.bi_inv_reachable b hb) hrun2,
    Uni.uni_progress_blockedOnDirection s hinv hasleep hrun i,
    Uni.uni_progress_blockedInSemWait s hinv hasleep hrun i⟩

/-- C11 at `gateFull`, where lizard 4 is blocked in `sem_wait`, and at
`Bi.oneForward`. -/
theorem C11_no_deadlock_witness :
    ∃ (j : Nat) (pc : Uni.LizardPC), j ≠ 4 ∧ Uni.gateFull.lizards[j]? = some pc ∧
      Uni.canProceed Uni.gateFull j = true ∧
      (Uni.traversing pc = true ∨ Uni.pastTraversal pc = true ∨
        (Uni.atPredicate pc = true ∧ Uni.gateFull.currentDirection = .NONE)) :=
  (C11_no_deadlock Uni.gateFull ⟨5, 0, Uni.gateFullSchedule, by decide⟩ rfl
    Bi.oneForward ⟨2, 1, Bi.oneForwardSchedule, by decide⟩ rfl 4).2.2.2
    ⟨Or.inl rfl, rfl⟩

/-- C11, counterexample: `gateFull` is reachable, the process runs, lizard 4 is
blocked in `sem_wait`, and no other lizard is mid-traversal or past its
traversal (the four permit holders have not yet evaluated their predicate). -/
theorem C11_gate_full_counterexample :
    Uni.Reachable Uni.gateFull ∧ Uni.gateFull.exitStatus = none ∧
    Uni.blockedInSemWait Uni.gateFull 4 ∧
    ¬ ∃ (j : Nat) (pc : Uni.LizardPC), j ≠ 4 ∧ Uni.gateFull.lizards[j]? = some pc ∧
      (Uni.traversing pc = true ∨ Uni.pastTraversal pc = true) := by
  refine ⟨⟨5, 0, Uni.gateFullSchedule, by decide⟩, rfl, ⟨Or.inl rfl, rfl⟩, ?_⟩
  rintro ⟨j, pc, -, hj, hp⟩
  have hmem : pc ∈ Uni.gateFull.lizards := List.getElem?_mem hj
  have hall : ∀ x ∈ Uni.gateFull.lizards,
      ¬ (Uni.traversing x = true ∨ Uni.pastTraversal x = true) := by decide
  exact hall pc hmem hp

/-! ## Counter operations of each lizard -/

namespace Uni

theorem uni_counted_step (s t : State) (a : Action) (i : Nat) (hs : step s a = some t) :
    countedNowS2M t i = countedNowS2M s i + forwardDelta s a i ∧
    countedNowM2S t i = countedNowM2S s i + backwardDelta s a i := by
  unfold step at hs
  split at hs
  · contradiction
  · cases a with
    | lizard j =>
        simp only at hs
        by_cases hji : j = i
        · subst hji
          unfold lizardStep at hs
          split at hs
          all_goals try contradiction
          all_goals
            rename_i heq
            have hlt : j < s.lizards.length := by
              obtain ⟨h, -⟩ := List.getElem?_eq_some.mp heq
              exact h
            simp only [setPC, claimS2M, claimM2S, completeS2M, completeM2S, exitProcess] at hs
          all_goals
            repeat' split at hs
          all_goals try contradiction
          all_goals
            simp only [Option.some.injEq] at hs
            subst hs
            simp_all [countedNowS2M, countedNowM2S, forwardDelta, backwardDelta,
              List.getElem?_set, notify_all, countedS2M, countedM2S]
        · unfold lizardStep at hs
          split at hs
          all_goals try contradiction
          all_goals
            simp only [setPC, claimS2M, claimM2S, completeS2M, completeM2S, exitProcess] at hs
          all_goals
            repeat' split at hs
          all_goals try contradiction
          all_goals
            simp only [Option.some.injEq] at hs
            subst hs
            simp only [countedNowS2M, countedNowM2S, forwardDelta, backwardDelta, if_neg hji,
              notify_all, List.getElem?_set_ne hji, List.getElem?_map, add_zero]
          all_goals
            cases s.lizards[i]? with
            | none => simp
            | some pc => cases pc <;> simp [wake, countedS2M, countedM2S]
    | spurious j =>
        simp only at hs
        unfold spuriousStep at hs
        split at hs
        all_goals try contradiction
        all_goals
          rename_i heq
          simp only [setPC, Option.some.injEq] at hs
          subst hs
          by_cases hji : j = i
          · subst hji
            have hlt : j < s.lizards.length := by
              obtain ⟨h, -⟩ := List.getElem?_eq_some.mp heq
              exact h
            simp [countedNowS2M, countedNowM2S, forwardDelta, backwardDelta, heq,
              List.getElem?_set, hlt, countedS2M, countedM2S]
          · simp [countedNowS2M, countedNowM2S, forwardDelta, backwardDelta,
              List.getElem?_set_ne hji]
    | cat j =>
        obtain ⟨-, -, -, -, hl, -⟩ := uni_catStep_shared s t j hs
        simp [countedNowS2M, countedNowM2S, forwardDelta, backwardDelta, hl]
    | worldEnd =>
        simp only at hs
        split at hs
        · simp only [Option.some.injEq] at hs
          subst hs
          simp [countedNowS2M, countedNowM2S, forwardDelta, backwardDelta]
        · contradiction

theorem uni_counted_run (schedule : List Action) (s t : State) (i : Nat)
    (hs : run s schedule = some t) :
    countedNowS2M t i = countedNowS2M s i + forwardBalance i s schedule ∧
    countedNowM2S t i = countedNowM2S s i + backwardBalance i s schedule := by
  induction schedule generalizing s with
  | nil =>
      simp only [run, Option.some.injEq] at hs
      subst hs
      simp [forwardBalance, backwardBalance]
  | cons a rest ih =>
      simp only [run] at hs
      split at hs
      · contradiction
      · rename_i u hu
        have h1 := uni_counted_step s u a i hu
        have h2 := ih u hs
        simp only [forwardBalance, backwardBalance, hu]
        omega

theorem uni_countedNow_init (n m i : Nat) :
    countedNowS2M (init n m) i = 0 ∧ countedNowM2S (init n m) i = 0 := by
  simp only [countedNowS2M, countedNowM2S, init, List.getElem?_replicate]
  by_cases h : i < n <;> simp [h, countedS2M, countedM2S]

end Uni

namespace Bi

theorem bi_counted_step (s t : State) (a : Action) (i : Nat) (hs : step s a = some t) :
    countedNowS2M t i = countedNowS2M s i + forwardDelta s a i ∧
    countedNowM2S t i = countedNowM2S s i + backwardDelta s a i := by
  unfold step at hs
  split at hs
  · contradiction
  · cases a with
    | lizard j =>
        simp only at hs
        by_cases hji : j = i
        · subst hji
          unfold lizardStep at hs
          split at hs
          all_goals try contradiction
          all_goals
            rename_i heq
            have hlt : j < s.lizards.length := by
              obtain ⟨h, -⟩ := List.getElem?_eq_some.mp heq
              exact h
            simp only [setPC, exitProcess] at hs
          all_goals
            repeat' split at hs
          all_goals try contradiction
          all_goals
            simp only [Option.some.injEq] at hs
            subst hs
            simp_all [countedNowS2M, countedNowM2S, forwardDelta, backwardDelta,
              List.getElem?_set, countedS2M, countedM2S]
        · unfold lizardStep at hs
          split at hs
          all_goals try contradiction
          all_goals
            simp only [setPC, exitProcess] at hs
          all_goals
            repeat' split at hs
          all_goals try contradiction
          all_goals
            simp only [Option.some.injEq] at hs
            subst hs
            simp [countedNowS2M, countedNowM2S, forwardDelta, backwardDelta, hji,
              List.getElem?_set_ne hji]
    | cat j =>
        obtain ⟨-, -, -, hl, -⟩ := bi_catStep_shared s t j hs
        simp [countedNowS2M, countedNowM2S, forwardDelta, backwardDelta, hl]
    | worldEnd =>
        simp only at hs
        split at hs
        · simp only [Option.some.injEq] at hs
          subst hs
          simp [countedNowS2M, countedNowM2S, forwardDelta, backwardDelta]
        · contradiction

theorem bi_counted_run (schedule : List Action) (s t : State) (i : Nat)
    (hs : run s schedule = some t) :
    countedNowS2M t i = countedNowS2M s i + forwardBalance i s schedule ∧
    countedNowM2S t i = countedNowM2S s i + backwardBalance i s schedule := by
  induction schedule generalizing s with
  | nil =>
      simp only [run, Option.some.injEq] at hs
      subst hs
      simp [forwardBalance, backwardBalance]
  | cons a rest ih =>
      simp only [run] at hs
      split at hs
      · contradiction
      · rename_i u hu
        have h1 := bi_counted_step s u a i hu
        have h2 := ih u hs
        simp only [forwardBalance, backwardBalance, hu]
        omega

theorem bi_countedNow_init (n m i : Nat) :
    countedNowS2M (init n m) i = 0 ∧ countedNowM2S (init n m) i = 0 := by
  simp only [countedNowS2M, countedNowM2S, init, List.getElem?_replicate]
  by_cases h : i < n <;> simp [h, countedS2M, countedM2S]

theorem bi_counted_pos (p : LizardPC → Bool) (l : List LizardPC) (i : Nat) (pc : LizardPC)
    (h : l[i]? = some pc) (hp : p pc = true) : 0 < countPC p l := by
  obtain ⟨l1, l2, rfl, -, -⟩ := split_at_thread l i pc h
  simp [countPC_append, countPC_cons, hp]

end Bi

/-- C13. Counter meaning and non-negativity: in both programs, in every state
reached from the initial state, each counter equals the number of lizards
between their increment and their decrement of that counter; for every lizard
the increments it has executed minus its decrements is 1 exactly when it is
between the two and 0 otherwise; both counters are at least 0; and a lizard
about to decrement a counter finds it positive. -/
theorem C13_counter_meaning (n m : Nat) (schedule : List Uni.Action) (s : Uni.State)
    (hs : Uni.run (Uni.init n m) schedule = some s)
    (n2 m2 : Nat) (schedule2 : List Bi.Action) (b : Bi.State)
    (hb : Bi.run (Bi.init n2 m2) schedule2 = some b) (i : Nat) :
    (s.numCrossingSago2MonkeyGrass = (countPC Uni.countedS2M s.lizards : Int) ∧
      s.numCrossingMonkeyGrass2Sago = (countPC Uni.countedM2S s.lizards : Int) ∧
      Uni.forwardBalance i (Uni.init n m) schedule = Uni.countedNowS2M s i ∧
      Uni.backwardBalance i (Uni.init n m) schedule = Uni.countedNowM2S s i ∧
      0 ≤ s.numCrossingSago2MonkeyGrass ∧ 0 ≤ s.numCrossingMonkeyGrass2Sago ∧
      (s.lizards[i]? = some .crossS2M → 0 < s.numCrossingSago2MonkeyGrass) ∧
      (s.lizards[i]? = some .crossM2S → 0 < s.numCrossingMonkeyGrass2Sago)) ∧
    (b.numCrossingSago2MonkeyGrass = (countPC Bi.countedS2M b.lizards : Int) ∧
      b.numCrossingMonkeyGrass2Sago = (countPC Bi.countedM2S b.lizards : Int) ∧
      Bi.forwardBalance i (Bi.init n2 m2) schedule2 = Bi.countedNowS2M b i ∧
      Bi.backwardBalance i (Bi.init n2 m2) schedule2 = Bi.countedNowM2S b i ∧
      0 ≤ b.numCrossingSago2MonkeyGrass ∧ 0 ≤ b.numCrossingMonkeyGrass2Sago ∧
      (b.lizards[i]? = some .crossS2M → 0 < b.numCrossingSago2MonkeyGrass) ∧
      (b.lizards[i]? = some .crossM2S → 0 < b.numCrossingMonkeyGrass2Sago)) := by
  constructor
  · obtain ⟨-, ⟨hf, hbw⟩, -⟩ := Uni.uni_inv_reachable s ⟨n, m, schedule, hs⟩
    obtain ⟨c1, c2⟩ := Uni.uni_counted_run schedule _ s i hs
    obtain ⟨z1, z2⟩ := Uni.uni_countedNow_init n m i
    rw [z1] at c1
    rw [z2] at c2
    refine ⟨hf, hbw, by omega, by omega, by omega, by omega, ?_, ?_⟩
    · intro hi
      have := Uni.uni_counted_pos Uni.countedS2M s.lizards i _ hi rfl
      omega
    · intro hi
      have := Uni.uni_counted_pos Uni.countedM2S s.lizards i _ hi rfl
      omega
  · obtain ⟨-, hf, hbw⟩ := Bi.bi_inv_reachable b ⟨n2, m2, schedule2, hb⟩
    obtain ⟨c1, c2⟩ := Bi.bi_counted_run schedule2 _ b i hb
    obtain ⟨z1, z2⟩ := Bi.bi_countedNow_init n2 m2 i
    rw [z1] at c1
    rw [z2] at c2
    refine ⟨hf, hbw, by omega, by omega, by omega, by omega, ?_, ?_⟩
    · intro hi
      have := Bi.bi_counted_pos Bi.countedS2M b.lizards i _ hi rfl
      omega
    · intro hi
      have := Bi.bi_counted_pos Bi.countedM2S b.lizards i _ hi rfl
      omega

/-- C13 at the states reached by `oneForwardSchedule` in both programs. -/
theorem C13_counter_meaning_witness :
    Uni.oneForward.numCrossingSago2MonkeyGrass =
      (countPC Uni.countedS2M Uni.oneForward.lizards : Int) ∧
    Uni.forwardBalance 0 (Uni.init 2 1) Uni.oneForwardSchedule =
      Uni.countedNowS2M Uni.oneForward 0 ∧
    Bi.oneForward.numCrossingSago2MonkeyGrass =
      (countPC Bi.countedS2M Bi.oneForward.lizards : Int) ∧
    Bi.forwardBalance 0 (Bi.init 2 1) Bi.oneForwardSchedule =
      Bi.countedNowS2M Bi.oneForward 0 :=
  have h := C13_counter_meaning 2 1 Uni.oneForwardSchedule Uni.oneForward (by decide)
    2 1 Bi.oneForwardSchedule Bi.oneForward (by decide) 0
  ⟨h.1.1, h.1.2.2.1, h.2.1, h.2.2.2.1⟩

/-! ## Lock nesting -/

theorem heldAfter_append (held : List Mutex) (xs ys : List LockOp) :
    heldAfter held (xs ++ ys) = heldAfter (heldAfter held xs) ys := by
  induction xs generalizing held with
  | nil => rfl
  | cons op rest ih => simp [heldAfter, ih]

theorem mem_heldAlong_append (held : List Mutex) (xs ys : List LockOp) (h : List Mutex)
    (hm : h ∈ heldAlong held (xs ++ ys)) :
    h ∈ heldAlong held xs ∨ h ∈ heldAlong (heldAfter held xs) ys := by
  induction xs generalizing held with
  | nil => exact Or.inr hm
  | cons op rest ih =>
      simp only [List.cons_append, heldAlong, List.mem_cons] at hm
      rcases hm with hm | hm
      · exact Or.inl (by simp [heldAlong, hm])
      · rcases ih _ hm with h1 | h1
        · exact Or.inl (by simp [heldAlong, h1])
        · exact Or.inr h1

/-- Safe sequences compose. -/
theorem LocksSafe.append {ok : List Mutex → Prop} {a b c : List Mutex}
    {xs ys : List LockOp} (h1 : LocksSafe ok a xs b) (h2 : LocksSafe ok b ys c) :
    LocksSafe ok a (xs ++ ys) c := by
  obtain ⟨e1, s1⟩ := h1
  obtain ⟨e2, s2⟩ := h2
  refine ⟨by rw [heldAfter_append, e1, e2], ?_⟩
  intro h hm
  rcases mem_heldAlong_append a xs ys h hm with hm | hm
  · exact s1 h hm
  · rw [e1] at hm
    exact s2 h hm

theorem locksSafe_nil {ok : List Mutex → Prop} (a : List Mutex) (h : ok a) :
    LocksSafe ok a [] a := by
  refine ⟨rfl, ?_⟩
  intro x hx
  simp only [heldAlong, List.mem_singleton] at hx
  rw [hx]
  exact h

/-- A debug print made while holding nothing is safe for both policies. -/
theorem debugPrint_free_atMostOne (debug : Bool) :
    LocksSafe atMostOne [] (debugPrint debug) [] := by
  cases debug
  · exact locksSafe_nil [] (by simp [atMostOne])
  · refine ⟨rfl, ?_⟩
    intro h hm
    simp only [debugPrint, heldAlong, applyLock] at hm
    simp at hm
    rcases hm with rfl | rfl | rfl <;> simp [atMostOne]

theorem debugPrint_free_nested (debug : Bool) :
    LocksSafe coutInsideCounters [] (debugPrint debug) [] := by
  cases debug
  · exact locksSafe_nil [] (Or.inl rfl)
  · refine ⟨rfl, ?_⟩
    intro h hm
    simp only [debugPrint, heldAlong, applyLock] at hm
    simp at hm
    rcases hm with rfl | rfl | rfl <;> simp [coutInsideCounters]

/-- Taking and dropping the counters mutex while holding nothing. -/
theorem countersSection_safe (ok : List Mutex → Prop) (h0 : ok [])
    (h1 : ok [.counters]) :
    LocksSafe ok [] [.acquire .counters, .release .counters] [] := by
  refine ⟨rfl, ?_⟩
  intro h hm
  simp only [heldAlong, applyLock] at hm
  simp at hm
  rcases hm with rfl | rfl | rfl <;> assumption

theorem acquireCounters_safe (ok : List Mutex → Prop) (h0 : ok []) (h1 : ok [.counters]) :
    LocksSafe ok [] [.acquire .counters] [.counters] := by
  refine ⟨rfl, ?_⟩
  intro h hm
  simp only [heldAlong, applyLock] at hm
  simp at hm
  rcases hm with rfl | rfl <;> assumption

theorem releaseCounters_safe (ok : List Mutex → Prop) (h0 : ok []) (h1 : ok [.counters]) :
    LocksSafe ok [.counters] [.release .counters] [] := by
  refine ⟨rfl, ?_⟩
  intro h hm
  simp only [heldAlong, applyLock] at hm
  simp at hm
  rcases hm with rfl | rfl <;> assumption

/-- A debug print made while holding the counters mutex passes through the set
holding both mutexes. -/
theorem debugPrint_inside_nested (debug : Bool) :
    LocksSafe coutInsideCounters [.counters] (debugPrint debug) [.counters] := by
  cases debug
  · exact locksSafe_nil _ (Or.inr (Or.inl rfl))
  · refine ⟨rfl, ?_⟩
    intro h hm
    simp only [debugPrint, heldAlong, applyLock] at hm
    simp at hm
    rcases hm with rfl | rfl | rfl <;> simp [coutInsideCounters]

namespace Uni

theorem uni_cvWait_safe (ok : List Mutex → Prop) (h0 : ok []) (h1 : ok [.counters])
    (blocks : Nat) : LocksSafe ok [.counters] (cvWaitLocks blocks) [.counters] := by
  induction blocks with
  | zero => exact locksSafe_nil _ h1
  | succ k ih =>
      unfold cvWaitLocks
      refine LocksSafe.append ?_ ih
      refine ⟨rfl, ?_⟩
      intro h hm
      simp only [heldAlong, applyLock] at hm
      simp at hm
      rcases hm with rfl | rfl | rfl <;> assumption

theorem uni_isSafe_safe (ok : List Mutex → Prop) (debug : Bool) (h0 : ok [])
    (h1 : ok [.counters]) (houter : LocksSafe ok [] (debugPrint debug) [])
    (hinner : LocksSafe ok [.counters] (debugPrint debug) [.counters]) (blocks : Nat) :
    LocksSafe ok [] (isSafeLocks debug blocks) [] := by
  unfold isSafeLocks
  exact LocksSafe.append
    (LocksSafe.append
      (LocksSafe.append (LocksSafe.append houter (acquireCounters_safe ok h0 h1))
        (uni_cvWait_safe ok h0 h1 blocks))
      hinner)
    (releaseCounters_safe ok h0 h1)

theorem uni_cross_safe (ok : List Mutex → Prop) (debug : Bool) (h0 : ok [])
    (h1 : ok [.counters]) (houter : LocksSafe ok [] (debugPrint debug) []) :
    LocksSafe ok [] (crossLocks debug) [] := by
  unfold crossLocks
  exact LocksSafe.append
    (LocksSafe.append (LocksSafe.append houter (countersSection_safe ok h0 h1)) houter)
    (countersSection_safe ok h0 h1)

theorem uni_iteration_safe (ok : List Mutex → Prop) (debug : Bool) (h0 : ok [])
    (h1 : ok [.counters]) (houter : LocksSafe ok [] (debugPrint debug) [])
    (hinner : LocksSafe ok [.counters] (debugPrint debug) [.counters])
    (blocksS2M blocksM2S : Nat) :
    LocksSafe ok [] (iterationLocks debug blocksS2M blocksM2S) [] := by
  have hsleep : LocksSafe ok [] (sleepNowLocks debug) [] := LocksSafe.append houter houter
  have heat : LocksSafe ok [] (eatLocks debug) [] := LocksSafe.append houter houter
  have hmade : LocksSafe ok [] (madeItLocks debug) [] := houter
  have hcross := uni_cross_safe ok debug h0 h1 houter
  have hs1 := uni_isSafe_safe ok debug h0 h1 houter hinner blocksS2M
  have hs2 := uni_isSafe_safe ok debug h0 h1 houter hinner blocksM2S
  unfold iterationLocks
  exact LocksSafe.append
    (LocksSafe.append
      (LocksSafe.append
        (LocksSafe.append
          (LocksSafe.append (LocksSafe.append (LocksSafe.append hsleep hs1) hcross) hmade)
          heat)
        hs2)
      hcross)
    hmade

theorem uni_thread_safe (ok : List Mutex → Prop) (debug : Bool) (h0 : ok [])
    (h1 : ok [.counters]) (houter : LocksSafe ok [] (debugPrint debug) [])
    (hinner : LocksSafe ok [.counters] (debugPrint debug) [.counters])
    (iterations : List (Nat × Nat)) :
    LocksSafe ok [] (lizardThreadLocks debug iterations) [] := by
  unfold lizardThreadLocks
  refine LocksSafe.append houter ?_
  induction iterations with
  | nil => exact locksSafe_nil _ h0
  | cons p rest ih =>
      unfold loopLocks
      exact LocksSafe.append (uni_iteration_safe ok debug h0 h1 houter hinner p.1 p.2) ih

end Uni

namespace Bi

theorem bi_thread_safe (debug : Bool) (iterations : Nat) :
    LocksSafe atMostOne [] (lizardThreadLocks debug iterations) [] := by
  have h0 : atMostOne [] := by simp [atMostOne]
  have h1 : atMostOne [.counters] := by simp [atMostOne]
  have houter := debugPrint_free_atMostOne debug
  have hsection := countersSection_safe atMostOne h0 h1
  have htwo : LocksSafe atMostOne [] (debugPrint debug ++ debugPrint debug) [] :=
    LocksSafe.append houter houter
  have hcross : LocksSafe atMostOne [] (crossLocks debug) [] := by
    unfold crossLocks
    exact LocksSafe.append
      (LocksSafe.append (LocksSafe.append houter hsection) houter) hsection
  have hiter : LocksSafe atMostOne [] (iterationLocks debug) [] := by
    unfold iterationLocks sleepNowLocks isSafeLocks madeItLocks eatLocks
    exact LocksSafe.append
      (LocksSafe.append
        (LocksSafe.append
          (LocksSafe.append
            (LocksSafe.append (LocksSafe.append (LocksSafe.append htwo htwo) hcross) houter)
            htwo)
          htwo)
        hcross)
      houter
  unfold lizardThreadLocks
  refine LocksSafe.append houter ?_
  induction iterations with
  | zero => exact locksSafe_nil _ h0
  | succ k ih =>
      unfold loopLocks
      exact LocksSafe.append hiter ih

end Bi

/-- C15. Lock nesting: a lizard of lizards.cpp holds at most one
mutex at every point of its lifecycle, for either value of the debug flag; a
lizard of lizardsUni.cpp holds at most one mutex at every point when debug is
off; with debug on it holds nothing, one mutex, or `cout_mutex` taken while
holding `direction_mutex` (the trailing debug block of the two entry
functions), and never any other combination. -/
theorem C15_lock_nesting (debug : Bool) (iterations : Nat) (blocks : List (Nat × Nat)) :
    (∀ h ∈ heldAlong [] (Bi.lizardThreadLocks debug iterations), atMostOne h) ∧
    (∀ h ∈ heldAlong [] (Uni.lizardThreadLocks false blocks), atMostOne h) ∧
    (∀ h ∈ heldAlong [] (Uni.lizardThreadLocks true blocks), coutInsideCounters h) := by
  refine ⟨(Bi.bi_thread_safe debug iterations).2, ?_, ?_⟩
  · exact (Uni.uni_thread_safe atMostOne false (by simp [atMostOne]) (by simp [atMostOne])
      (debugPrint_free_atMostOne false) (locksSafe_nil _ (by simp [atMostOne])) blocks).2
  · exact (Uni.uni_thread_safe coutInsideCounters true (Or.inl rfl) (Or.inr (Or.inl rfl))
      (debugPrint_free_nested true) (debugPrint_inside_nested true) blocks).2

/-- C15, counterexample: in lizardsUni.cpp with debug on, a lizard in its first
iteration holds `direction_mutex` and `cout_mutex` together. -/
theorem C15_nested_lock_counterexample :
    ¬ ∀ h ∈ heldAlong [] (Uni.lizardThreadLocks true [(0, 0)]), atMostOne h := by
  intro hall
  have hmem : [Mutex.cout, Mutex.counters] ∈
      heldAlong [] (Uni.lizardThreadLocks true [(0, 0)]) := by
    decide
  have h2 := hall _ hmem
  simp [atMostOne] at h2

/-! ## Shutdown -/

namespace Uni

/-- When every lizard has returned, both counters are 0, the direction is
`NONE` and every permit is available. -/
theorem uni_all_returned (s : State) (h : Inv s)
    (hall : ∀ pc ∈ s.lizards, pc = LizardPC.returned) :
    s.numCrossingSago2MonkeyGrass = 0 ∧ s.numCrossingMonkeyGrass2Sago = 0 ∧
    s.currentDirection = .NONE ∧ s.driveway_sem = MAX_LIZARD_CROSSING := by
  obtain ⟨hg, ⟨hf, hb⟩, hd⟩ := h
  have hzero : ∀ (p : LizardPC → Bool), p .returned = false → countPC p s.lizards = 0 := by
    intro p hp
    generalize s.lizards = l at hall
    induction l with
    | nil => rfl
    | cons a l ih =>
        have ha : a = .returned := hall a (by simp)
        subst ha
        simp only [countPC, hp]
        simpa using ih (fun pc hpc => hall pc (by simp [hpc]))
  have h1 := hzero holdsPermit rfl
  have h2 := hzero countedS2M rfl
  have h3 := hzero countedM2S rfl
  unfold GateInv permitsInUse at hg
  rw [h2] at hf
  rw [h3] at hb
  refine ⟨by simpa using hf, by simpa using hb, ?_, by omega⟩
  unfold DirectionInv at hd
  split at hd <;> rename_i hdir
  · exact hdir
  · omega
  · omega

/-- After `running = 0` the flag stays cleared, no lizard and no cat starts a
new iteration, and the lifecycle steps each still has to finish never grow. -/
theorem uni_shutdown_step (s t : State) (a : Action) (i : Nat) (hrun : s.running = false)
    (hs : step s a = some t) :
    t.running = false ∧ stepsLeftOf t i ≤ stepsLeftOf s i ∧
    catStepsLeftOf t i ≤ catStepsLeftOf s i := by
  unfold step at hs
  split at hs
  · contradiction
  · cases a with
    | lizard j =>
        simp only at hs
        have hc := uni_lizardStep_cats s t j hs
        unfold lizardStep at hs
        split at hs
        all_goals try contradiction
        all_goals
          rename_i heq
          simp only [setPC, claimS2M, claimM2S, completeS2M, completeM2S, exitProcess] at hs
        all_goals
          repeat' split at hs
        all_goals try contradiction
        all_goals
          simp only [Option.some.injEq] at hs
          subst hs
          refine ⟨hrun, ?_, by simp [catStepsLeftOf]⟩
          simp only [stepsLeftOf, notify_all, List.getElem?_set, List.getElem?_map]
          by_cases hji : j = i
          · subst hji
            have hlt : j < s.lizards.length := by
              obtain ⟨h, -⟩ := List.getElem?_eq_some.mp heq
              exact h
            simp_all [stepsLeft]
          · try simp only [if_neg hji]
            cases s.lizards[i]? with
            | none => exact Nat.le_refl _
            | some pc => cases pc <;> exact Nat.le_refl _
    | spurious j =>
        simp only at hs
        unfold spuriousStep at hs
        split at hs
        all_goals try contradiction
        all_goals
          rename_i heq
          simp only [setPC, Option.some.injEq] at hs
          subst hs
          refine ⟨hrun, ?_, by simp [catStepsLeftOf]⟩
          simp only [stepsLeftOf, List.getElem?_set]
          by_cases hji : j = i
          · subst hji
            have hlt : j < s.lizards.length := by
              obtain ⟨h, -⟩ := List.getElem?_eq_some.mp heq
              exact h
            simp [heq, hlt, stepsLeft]
          · simp [hji]
    | cat j =>
        simp only at hs
        obtain ⟨-, -, -, -, hl, hr⟩ := uni_catStep_shared s t j hs
        refine ⟨by rw [hr]; exact hrun, by simp [stepsLeftOf, hl], ?_⟩
        unfold catStep at hs
        split at hs
        all_goals try contradiction
        all_goals
          rename_i heq
        all_goals
          repeat' split at hs
        all_goals
          simp only [Option.some.injEq] at hs
          subst hs
          simp only [catStepsLeftOf, setCat, exitProcess, List.getElem?_set]
          by_cases hji : j = i
          · subst hji
            have hlt : j < s.cats.length := by
              obtain ⟨h, -⟩ := List.getElem?_eq_some.mp heq
              exact h
            simp_all [catStepsLeft]
          · simp [hji]
    | worldEnd =>
        simp only at hs
        rw [hrun] at hs
        simp at hs

end Uni

namespace Bi

/-- When every lizard has returned, both counters are 0 and every permit is
available. -/
theorem bi_all_returned (s : State) (h : Inv s)
    (hall : ∀ pc ∈ s.lizards, pc = LizardPC.returned) :
    s.numCrossingSago2MonkeyGrass = 0 ∧ s.numCrossingMonkeyGrass2Sago = 0 ∧
    s.driveway_sem = MAX_LIZARD_CROSSING := by
  obtain ⟨hg, hf, hb⟩ := h
  have hzero : ∀ (p : LizardPC → Bool), p .returned = false → countPC p s.lizards = 0 := by
    intro p hp
    generalize s.lizards = l at hall
    induction l with
    | nil => rfl
    | cons a l ih =>
        have ha : a = .returned := hall a (by simp)
        subst ha
        simp only [countPC, hp]
        simpa using ih (fun pc hpc => hall pc (by simp [hpc]))
  have h1 := hzero holdsPermit rfl
  have h2 := hzero countedS2M rfl
  have h3 := hzero countedM2S rfl
  unfold GateInv permitsInUse at hg
  rw [h2] at hf
  rw [h3] at hb
  exact ⟨by simpa using hf, by simpa using hb, by omega⟩

/-- After `running = 0` the flag stays cleared, no lizard and no cat starts a
new iteration, and the lifecycle steps each still has to finish never grow. -/
theorem bi_shutdown_step (s t : State) (a : Action) (i : Nat) (hrun : s.running = false)
    (hs : step s a = some t) :
    t.running = false ∧ stepsLeftOf t i ≤ stepsLeftOf s i ∧
    catStepsLeftOf t i ≤ catStepsLeftOf s i := by
  unfold step at hs
  split at hs
  · contradiction
  · cases a with
    | lizard j =>
        simp only at hs
        have hc := bi_lizardStep_cats s t j hs
        unfold lizardStep at hs
        split at hs
        all_goals try contradiction
        all_goals
          rename_i heq
          simp only [setPC, exitProcess] at hs
        all_goals
          repeat' split at hs
        all_goals try contradiction
        all_goals
          simp only [Option.some.injEq] at hs
          subst hs
          refine ⟨hrun, ?_, by simp [catStepsLeftOf]⟩
          simp only [stepsLeftOf, List.getElem?_set]
          by_cases hji : j = i
          · subst hji
            have hlt : j < s.lizards.length := by
              obtain ⟨h, -⟩ := List.getElem?_eq_some.mp heq
              exact h
            simp_all [stepsLeft]
          · try simp only [if_neg hji]
            exact Nat.le_refl _
    | cat j =>
        simp only at hs
        obtain ⟨-, -, -, hl, hr⟩ := bi_catStep_shared s t j hs
        refine ⟨by rw [hr]; exact hrun, by simp [stepsLeftOf, hl], ?_⟩
        unfold catStep at hs
        split at hs
        all_goals try contradiction
        all_goals
          rename_i heq
        all_goals
          repeat' split at hs
        all_goals
          simp only [Option.some.injEq] at hs
          subst hs
          simp only [catStepsLeftOf, setCat, exitProcess, List.getElem?_set]
          by_cases hji : j = i
          · subst hji
            have hlt : j < s.cats.length := by
              obtain ⟨h, -⟩ := List.getElem?_eq_some.mp heq
              exact h
            simp_all [catStepsLeft]
          · simp [hji]
    | worldEnd =>
        simp only at hs
        rw [hrun] at hs
        simp at hs

end Bi

/-- C12. With five lizards and one cat, in both programs the schedule
`shutdownTornReadSchedule` clears `running` between the two loads of the cat;
the lizards go on with their last iteration, the cat adds the 4 it loaded
before to the 1 it loads now and calls `exit(-1)`: the process ends with the
flag cleared while lizard 0 is in `eat` and lizard 4 is mid-traversal, so the
state in which all threads have returned is not reached. -/
theorem C12_shutdown_cat_exit :
    (∃ t, Uni.run (Uni.init 5 1) Uni.shutdownTornReadSchedule = some t ∧
      t.running = false ∧ t.exitStatus = some (-1) ∧
      t.lizards[0]? = some .eat ∧ t.lizards[4]? = some .checkM2S ∧
      t.numCrossingSago2MonkeyGrass + t.numCrossingMonkeyGrass2Sago
        ≤ (MAX_LIZARD_CROSSING : Int)) ∧
    (∃ t, Bi.run (Bi.init 5 1) Bi.shutdownTornReadSchedule = some t ∧
      t.running = false ∧ t.exitStatus = some (-1) ∧
      t.lizards[0]? = some .eat ∧ t.lizards[4]? = some .checkM2S ∧
      t.numCrossingSago2MonkeyGrass + t.numCrossingMonkeyGrass2Sago
        ≤ (MAX_LIZARD_CROSSING : Int)) := by
  constructor
  · refine ⟨{ currentDirection := .MONKEY_GRASS_TO_SAGO
              numCrossingSago2MonkeyGrass := 0
              numCrossingMonkeyGrass2Sago := 1
              driveway_sem := 0
              running := false
              exitStatus := some (-1)
              lizards := [.eat, .postS2M, .postS2M, .postS2M, .checkM2S]
              cats := [.readM2S 4] }, by decide, rfl, rfl, rfl, rfl, by decide⟩
  · refine ⟨{ numCrossingSago2MonkeyGrass := 3
              numCrossingMonkeyGrass2Sago := 1
              driveway_sem := 0
              running := false
              exitStatus := some (-1)
              lizards := [.eat, .checkS2M, .checkS2M, .checkS2M, .checkM2S]
              cats := [.readM2S 4] }, by decide, rfl, rfl, rfl, rfl, by decide⟩
